import Mathlib

/-!
Shallow embedding of the network-state coordinator (`crates/net/network/src/state.rs`) and the
block-body download queue (`crates/net/downloaders/src/bodies/queue.rs`), together with
verification of the specified properties. Hash maps become association lists whose order models
the source's peer-table iteration order; asynchronous sources become explicit pending-event
lists that one `poll` call drains; oneshot response futures become an `Option` that is either
still pending or resolves to a concrete result when next polled.
-/

namespace Reth

/-- Block hashes (`H256`, 32-byte words in the source), modelled as naturals. -/
abbrev H256 := Nat

/-- Peer identifiers (`PeerId`, 64-byte public keys in the source), modelled as naturals. -/
abbrev PeerId := Nat

/-- IP addresses, opaque to this state machine. -/
abbrev IpAddr := Nat

/-- Socket addresses, opaque to this state machine. -/
abbrev SocketAddr := Nat

/-- Fork identifiers (EIP-2124), opaque to this state machine. -/
abbrev ForkId := Nat

/-- Identifier of a logical request issued by an original requester through the fetcher. -/
abbrev ReqId := Nat

/-- Disconnect reasons, opaque to this state machine. -/
abbrev DisconnectReason := Nat

/-- Finds the value bound to key `k` in an association list (models `HashMap::get`). -/
def assocFind {β : Type} (k : Nat) : List (Nat × β) → Option β
  | [] => none
  | (k', v) :: rest => if k' = k then some v else assocFind k rest

/-- Applies `f` to the first entry with key `k` (models `HashMap::get_mut`). -/
def assocUpdate {β : Type} (k : Nat) (f : β → β) : List (Nat × β) → List (Nat × β)
  | [] => []
  | (k', v) :: rest => if k' = k then (k', f v) :: rest else (k', v) :: assocUpdate k f rest

/-- Removes the first entry with key `k` (models `HashMap::remove`). -/
def assocRemove {β : Type} (k : Nat) : List (Nat × β) → List (Nat × β)
  | [] => []
  | (k', v) :: rest => if k' = k then rest else (k', v) :: assocRemove k rest

/-- Modelled from the spec: the per-peer known-block cache (`crate::cache::LruCache`, whose
source file is not among the provided files). Per the spec it is a "bounded recency cache of
hashes (capacity 512), insertion-ordered eviction" whose "oldest-inserted entries evict
first": `inner` lists entries oldest-first, inserting a new distinct entry appends it and
evicts the oldest entry once the capacity would be exceeded, and inserting an already-present
entry leaves the cache unchanged. -/
structure LruCache where
  limit : Nat
  inner : List H256
deriving DecidableEq

/-- Creates an empty cache with the given capacity (`LruCache::new`). -/
def LruCache.new (limit : Nat) : LruCache :=
  { limit := limit, inner := [] }

/-- Membership test (`LruCache::contains`). -/
def LruCache.contains (c : LruCache) (h : H256) : Bool :=
  c.inner.contains h

/-- Insertion with oldest-first eviction (`LruCache::insert`). -/
def LruCache.insert (c : LruCache) (h : H256) : LruCache :=
  if c.inner.contains h then c
  else
    let grown := c.inner ++ [h]
    if c.limit < grown.length then { c with inner := grown.tail } else { c with inner := grown }

/-- Bulk insertion (`Extend::extend`, used by `on_new_block_hashes`). -/
def LruCache.extend (c : LruCache) (hs : List H256) : LruCache :=
  hs.foldl LruCache.insert c

/-- Cache limit of blocks to keep track of for a single peer (`PEER_BLOCK_CACHE_LIMIT`). -/
def PEER_BLOCK_CACHE_LIMIT : Nat := 512

/-- Header of a block; only the block number matters to this state machine. -/
structure Header where
  number : Nat
deriving DecidableEq

/-- A block, reduced to its header. -/
structure Block where
  header : Header
deriving DecidableEq

/-- Payload of a `NewBlock` eth message (`reth_eth_wire::NewBlock`): block plus total difficulty. -/
structure NewBlockPayload where
  block : Block
  td : Nat
deriving DecidableEq

/-- Internal message bundling a fresh block with its precomputed hash (`NewBlockMessage`). -/
structure NewBlockMessage where
  hash : H256
  block : NewBlockPayload
deriving DecidableEq

/-- One entry of a `NewBlockHashes` broadcast (`reth_eth_wire::BlockHashNumber`). -/
structure BlockHashNumber where
  hash : H256
  number : Nat
deriving DecidableEq

/-- Payload of a `NewBlockHashes` eth broadcast message. -/
abbrev NewBlockHashes := List BlockHashNumber

/-- Typed block-range request handed to `handle_block_request` (`BlockRequest`). The request
payloads themselves are opaque to the coordinator. -/
inductive BlockRequest where
  | GetBlockHeaders (request : Nat)
  | GetBlockBodies (request : List H256)
deriving DecidableEq

/-- Message sent into the peer's session channel (`PeerRequest`); the oneshot response sender
that the source packs into it is represented by the response half stored in
`pending_response`. -/
inductive PeerRequest where
  | GetBlockHeaders (request : Nat)
  | GetBlockBodies (request : List H256)
deriving DecidableEq

/-- Request-level errors (`reth_interfaces::p2p::error::RequestError`, abridged). -/
inductive RequestError where
  | channelClosed
  | connectionDropped
  | timeout
  | badResponse
deriving DecidableEq

/-- Discriminates the error the source treats as a closed session (`is_channel_closed`). -/
def RequestError.is_channel_closed : RequestError → Bool
  | .channelClosed => true
  | _ => false

/-- Result carried by a resolved response future (`Result<T, RequestError>` with the typed
payload opaque). -/
inductive RequestOutcome where
  | ok (payload : Nat)
  | err (e : RequestError)
deriving DecidableEq

/-- Matches `res.err().map(|err| err.is_channel_closed()).unwrap_or_default()` in `poll`. -/
def RequestOutcome.closed_channel : RequestOutcome → Bool
  | .ok _ => false
  | .err e => e.is_channel_closed

/-- Which kind of block response a pending future carries. -/
inductive RespKind where
  | headers
  | bodies
deriving DecidableEq

/-- Receiver half of an in-flight request (`PeerResponse`): `resolved = none` models a oneshot
receiver that is still pending; `resolved = some r` one that resolves to `r` when next
polled. -/
structure PeerResponse where
  kind : RespKind
  resolved : Option RequestOutcome
deriving DecidableEq

/-- A resolved response together with its kind (`PeerResponseResult`). -/
structure PeerResponseResult where
  kind : RespKind
  res : RequestOutcome
deriving DecidableEq

/-- Bounded mpsc channel to the peer's session task. `try_send` models tokio's non-blocking
bounded send: it silently does nothing when the channel is full or closed (the source
discards the error with `let _ = ...try_send(request)`). -/
structure Channel where
  capacity : Nat
  closed : Bool
  queue : List PeerRequest
deriving DecidableEq

/-- Non-blocking send on the bounded session channel. -/
def Channel.try_send (c : Channel) (r : PeerRequest) : Channel :=
  if c.closed ∨ c.capacity ≤ c.queue.length then c else { c with queue := c.queue ++ [r] }

/-- Handle used to dispatch requests to the peer's session task (`PeerRequestSender`). -/
structure PeerRequestSender where
  to_session_tx : Channel
deriving DecidableEq

/-- What the original requester of a logical request eventually observes. -/
inductive DeliveredResult where
  | connectionDropped
  | response (kind : RespKind) (res : RequestOutcome)
deriving DecidableEq

/-- Per-peer record kept by the fetcher: tracked best hash/height plus the shared timeout
handle forwarded at registration. -/
structure FetcherPeerState where
  best_hash : H256
  best_number : Nat
  timeout : Nat
deriving DecidableEq

/-- Event streamed by the fetcher to the coordinator (`FetchAction`). -/
inductive FetchAction where
  | BlockRequest (peer_id : PeerId) (request : Reth.BlockRequest)
deriving DecidableEq

/-- Follow-up instruction returned by the fetcher's response correlation
(`BlockResponseOutcome`). -/
inductive BlockResponseOutcome where
  | Request (peer : PeerId) (request : Reth.BlockRequest)
  | BadResponse (peer : PeerId) (reputation_change : Int)
deriving DecidableEq

/-- Modelled from the spec: the `StateFetcher` ("RequestFetcher"), whose source (`fetch`
module) is not among the provided files. Per the spec it is a "per-peer pipeline tracking
best-known height/hash", a polled source of issue-request events, and the bookkeeping that
surfaces connection-dropped errors to original requesters. `peers` tracks registered peers,
`actions` the not-yet-polled issue-request events, `inflight` the logical request (by
requester id) currently matched to each peer, and `delivered` what original requesters have
observed so far. -/
structure StateFetcher where
  peers : List (PeerId × FetcherPeerState)
  actions : List FetchAction
  inflight : List (PeerId × ReqId)
  delivered : List (ReqId × DeliveredResult)
  disconnecting : List PeerId
deriving DecidableEq

/-- Modelled from the spec: fetcher registration of a freshly activated peer
("Forwards peer id, head hash/height, and timeout handle to RequestFetcher"). -/
def StateFetcher.new_active_peer (f : StateFetcher) (pid : PeerId) (hash : H256) (number : Nat)
    (timeout : Nat) : StateFetcher :=
  { f with peers := f.peers ++ [(pid, { best_hash := hash, best_number := number, timeout := timeout })] }

/-- Modelled from the spec: whether the fetcher "confirms this is a height advance" — the peer
is tracked and the announced number strictly exceeds its tracked best height. -/
def StateFetcher.height_advance (f : StateFetcher) (pid : PeerId) (number : Nat) : Bool :=
  match assocFind pid f.peers with
  | some st => decide (st.best_number < number)
  | none => false

/-- Modelled from the spec: `StateFetcher::update_peer_block` updates the tracked best
hash/height of the peer and reports whether this confirmed a height advance. -/
def StateFetcher.update_peer_block (f : StateFetcher) (pid : PeerId) (hash : H256)
    (number : Nat) : StateFetcher × Bool :=
  if f.height_advance pid number then
    ({ f with
       peers := assocUpdate pid
         (fun st => { st with best_hash := hash, best_number := number }) f.peers }, true)
  else (f, false)

/-- Modelled from the spec: on session close the fetcher drops all state referencing the peer
and any in-flight logical request matched to it surfaces as `ConnectionDropped` to its
original requester. -/
def StateFetcher.on_session_closed (f : StateFetcher) (pid : PeerId) : StateFetcher :=
  { f with
    peers := assocRemove pid f.peers,
    inflight := f.inflight.filter (fun e => e.1 != pid),
    delivered := f.delivered ++
      (f.inflight.filter (fun e => e.1 == pid)).map
        (fun e => (e.2, DeliveredResult.connectionDropped)) }

/-- Modelled from the spec: notification of a pending disconnect decided by the lifecycle
manager. -/
def StateFetcher.on_pending_disconnect (f : StateFetcher) (pid : PeerId) : StateFetcher :=
  { f with disconnecting := f.disconnecting ++ [pid] }

/-- Modelled from the spec: response-correlation entry point for header responses; it delivers
the result to the original requester of the peer's in-flight request (none for
currently-unrecognized peers). The optional follow-up instruction is decided by fetcher
scheduling logic that is not among the provided files; this model issues no follow-up. -/
def StateFetcher.on_block_headers_response (f : StateFetcher) (pid : PeerId)
    (res : RequestOutcome) : StateFetcher × Option BlockResponseOutcome :=
  ({ f with
     inflight := f.inflight.filter (fun e => e.1 != pid),
     delivered := f.delivered ++
       (f.inflight.filter (fun e => e.1 == pid)).map
         (fun e => (e.2, DeliveredResult.response RespKind.headers res)) }, none)

/-- Modelled from the spec: response-correlation entry point for body responses; see
`StateFetcher.on_block_headers_response`. -/
def StateFetcher.on_block_bodies_response (f : StateFetcher) (pid : PeerId)
    (res : RequestOutcome) : StateFetcher × Option BlockResponseOutcome :=
  ({ f with
     inflight := f.inflight.filter (fun e => e.1 != pid),
     delivered := f.delivered ++
       (f.inflight.filter (fun e => e.1 == pid)).map
         (fun e => (e.2, DeliveredResult.response RespKind.bodies res)) }, none)

/-- Event yielded by the discovery source (`DiscoveryEvent`). -/
inductive DiscoveryEvent where
  | Discovered (peer_id : PeerId) (socket_addr : SocketAddr) (fork_id : Option ForkId)
  | EnrForkId (peer_id : PeerId) (fork_id : ForkId)
deriving DecidableEq

/-- Modelled from the spec: the discovery service as seen from this core — a polled source of
discovery events plus `ban` / `ban_ip` / `update_fork_id` entry points (the `discovery`
module is not among the provided files). -/
structure Discovery where
  events : List DiscoveryEvent
  banned_peers : List (PeerId × IpAddr)
  banned_ips : List IpAddr
  local_fork_id : Option ForkId
deriving DecidableEq

/-- Modelled from the spec: `Discovery::ban`. -/
def Discovery.ban (d : Discovery) (pid : PeerId) (ip : IpAddr) : Discovery :=
  { d with banned_peers := d.banned_peers ++ [(pid, ip)] }

/-- Modelled from the spec: `Discovery::ban_ip`. -/
def Discovery.ban_ip (d : Discovery) (ip : IpAddr) : Discovery :=
  { d with banned_ips := d.banned_ips ++ [ip] }

/-- Modelled from the spec: `Discovery::update_fork_id`. -/
def Discovery.update_fork_id (d : Discovery) (fid : ForkId) : Discovery :=
  { d with local_fork_id := some fid }

/-- Kind of a peer in the peer set (`reth_network_api::PeerKind`, abridged). -/
inductive PeerKind where
  | Basic
  | Trusted
deriving DecidableEq

/-- Event yielded by the peer-lifecycle manager (`PeerAction`). -/
inductive PeerAction where
  | Connect (peer_id : PeerId) (remote_addr : SocketAddr)
  | Disconnect (peer_id : PeerId) (reason : Option DisconnectReason)
  | DisconnectBannedIncoming (peer_id : PeerId)
  | DiscoveryBanPeerId (peer_id : PeerId) (ip_addr : IpAddr)
  | DiscoveryBanIp (ip_addr : IpAddr)
  | PeerAdded (peer_id : PeerId)
  | PeerRemoved (peer_id : PeerId)
  | BanPeer (peer_id : PeerId)
  | UnBanPeer (peer_id : PeerId)
deriving DecidableEq

/-- Modelled from the spec: the peer-lifecycle manager (`PeersManager`, whose source is not
among the provided files) as seen from this core — a polled source of `PeerAction`s plus the
reputation entry point. -/
structure PeersManager where
  events : List PeerAction
  reputation : List (PeerId × Int)
deriving DecidableEq

/-- Modelled from the spec: `PeersManager::apply_reputation_change`. -/
def PeersManager.apply_reputation_change (m : PeersManager) (pid : PeerId) (delta : Int) :
    PeersManager :=
  { m with reputation := m.reputation ++ [(pid, delta)] }

/-- Message variants triggered by the `NetworkState` (`StateAction`). -/
inductive StateAction where
  | NewBlock (peer_id : PeerId) (block : NewBlockMessage)
  | NewBlockHashes (peer_id : PeerId) (hashes : Reth.NewBlockHashes)
  | Connect (remote_addr : SocketAddr) (peer_id : PeerId)
  | Disconnect (peer_id : PeerId) (reason : Option DisconnectReason)
  | DiscoveredEnrForkId (peer_id : PeerId) (fork_id : ForkId)
  | DiscoveredNode (peer_id : PeerId) (socket_addr : SocketAddr) (fork_id : Option ForkId)
  | PeerAdded (peer_id : PeerId)
  | PeerRemoved (peer_id : PeerId)
deriving DecidableEq

/-- Tracks the state of a peer with an active session (`ActivePeer`). -/
structure ActivePeer where
  best_hash : H256
  capabilities : List Nat
  request_tx : PeerRequestSender
  pending_response : Option PeerResponse
  blocks : LruCache
deriving DecidableEq

/-- Handshake status; only the announced head block hash is used by this state machine
(`Status.blockhash`). -/
structure Status where
  blockhash : H256
deriving DecidableEq

/-- The network-state coordinator (`NetworkState`). The generic chain reader `C` is modelled
as a finite hash-to-number table: `client.block_number(hash)` becomes an association-list
lookup (best-effort; a missing entry plays the role of both `Err` and `Ok(None)`). -/
structure NetworkState where
  active_peers : List (PeerId × ActivePeer)
  peers_manager : PeersManager
  queued_messages : List StateAction
  client : List (H256 × Nat)
  discovery : Discovery
  genesis_hash : H256
  state_fetcher : StateFetcher
deriving DecidableEq

/-- How many peers we are currently connected to (`num_active_peers`). -/
def NetworkState.num_active_peers (s : NetworkState) : Nat :=
  s.active_peers.length

/-- Event hook for an activated session (`on_session_activated`). The source's
`debug_assert!(!self.active_peers.contains_key(&peer), "Already connected; not possible")`
is embedded as a hard invariant check: a duplicate registration is an unrecoverable error
rather than a silent overwrite. -/
def NetworkState.on_session_activated (s : NetworkState) (peer : PeerId)
    (capabilities : List Nat) (status : Status) (request_tx : PeerRequestSender)
    (timeout : Nat) : Except String NetworkState :=
  if (assocFind peer s.active_peers).isSome then
    Except.error "Already connected; not possible"
  else
    let block_number := (assocFind status.blockhash s.client).getD 0
    let fetcher := s.state_fetcher.new_active_peer peer status.blockhash block_number timeout
    Except.ok { s with
      state_fetcher := fetcher,
      active_peers := s.active_peers ++ [(peer,
        { best_hash := status.blockhash,
          capabilities := capabilities,
          request_tx := request_tx,
          pending_response := none,
          blocks := LruCache.new PEER_BLOCK_CACHE_LIMIT })] }

/-- Event hook for a disconnected session (`on_session_closed`). -/
def NetworkState.on_session_closed (s : NetworkState) (peer : PeerId) : NetworkState :=
  { s with
    active_peers := assocRemove peer s.active_peers,
    state_fetcher := s.state_fetcher.on_session_closed peer }

/-- Largest `j ≤ k` with `j * j ≤ n` (0 when there is none): helper for the integer square
root. -/
def natSqrtBelow : Nat → Nat → Nat
  | 0, _ => 0
  | (k + 1), n => if (k + 1) * (k + 1) ≤ n then k + 1 else natSqrtBelow k n

/-- Integer square root by bounded descending search; equal to `Nat.sqrt` (proved below) but
kernel-reducible, so concrete states evaluate. -/
def intSqrt (n : Nat) : Nat := natSqrtBelow n n

/-- Body of the `for` loop in `announce_new_block`, made explicit: processes the remaining
peer entries in iteration order with `count` full-block announcements already queued and
`num_propagate` the fan-out budget; returns the updated fetcher, the updated peer entries
(order unchanged) and the actions queued, honoring the source's early `break`. -/
def announceLoop (fetcher : StateFetcher) (msg : NewBlockMessage) (num_propagate count : Nat) :
    List (PeerId × ActivePeer) → StateFetcher × List (PeerId × ActivePeer) × List StateAction
  | [] => (fetcher, [], [])
  | (peer_id, peer) :: rest =>
    if peer.blocks.contains msg.hash then
      let r := announceLoop fetcher msg num_propagate count rest
      (r.1, (peer_id, peer) :: r.2.1, r.2.2)
    else if count < num_propagate then
      let upd := fetcher.update_peer_block peer_id msg.hash msg.block.block.header.number
      let peer' : ActivePeer :=
        { peer with
          best_hash := if upd.2 then msg.hash else peer.best_hash,
          blocks := peer.blocks.insert msg.hash }
      if num_propagate ≤ count + 1 then
        (upd.1, (peer_id, peer') :: rest, [StateAction.NewBlock peer_id msg])
      else
        let r := announceLoop upd.1 msg num_propagate (count + 1) rest
        (r.1, (peer_id, peer') :: r.2.1, StateAction.NewBlock peer_id msg :: r.2.2)
    else
      (fetcher, (peer_id, peer) :: rest, [])

/-- Starts propagating the new block (`announce_new_block`). The fan-out budget
`(self.active_peers.len() as f64).sqrt() as u64 + 1` is modelled as `intSqrt n + 1` (equal
to `Nat.sqrt n + 1`): the correctly rounded IEEE-754 square root truncated towards zero
agrees with the integer square root for every peer-table size below `2^52`. -/
def NetworkState.announce_new_block (s : NetworkState) (msg : NewBlockMessage) : NetworkState :=
  let num_propagate := intSqrt s.active_peers.length + 1
  let r := announceLoop s.state_fetcher msg num_propagate 0 s.active_peers
  { s with
    state_fetcher := r.1,
    active_peers := r.2.1,
    queued_messages := s.queued_messages ++ r.2.2 }

/-- Body of the `for` loop in `announce_new_block_hash`: for every peer that does not already
know the hash it queues a `NewBlockHashes` action and updates the tracked best hash when the
fetcher confirms a height advance; the peer's known-block cache is not touched. -/
def announceHashLoop (fetcher : StateFetcher) (msg : NewBlockMessage) (hashes : NewBlockHashes) :
    List (PeerId × ActivePeer) → StateFetcher × List (PeerId × ActivePeer) × List StateAction
  | [] => (fetcher, [], [])
  | (peer_id, peer) :: rest =>
    if peer.blocks.contains msg.hash then
      let r := announceHashLoop fetcher msg hashes rest
      (r.1, (peer_id, peer) :: r.2.1, r.2.2)
    else
      let upd := fetcher.update_peer_block peer_id msg.hash msg.block.block.header.number
      let peer' : ActivePeer :=
        { peer with best_hash := if upd.2 then msg.hash else peer.best_hash }
      let r := announceHashLoop upd.1 msg hashes rest
      (r.1, (peer_id, peer') :: r.2.1, StateAction.NewBlockHashes peer_id hashes :: r.2.2)

/-- Completes the block propagation started by `announce_new_block`
(`announce_new_block_hash`). -/
def NetworkState.announce_new_block_hash (s : NetworkState) (msg : NewBlockMessage) :
    NetworkState :=
  let number := msg.block.block.header.number
  let hashes : NewBlockHashes := [{ hash := msg.hash, number := number }]
  let r := announceHashLoop s.state_fetcher msg hashes s.active_peers
  { s with
    state_fetcher := r.1,
    active_peers := r.2.1,
    queued_messages := s.queued_messages ++ r.2.2 }

/-- Updates the block information for the peer (`update_peer_block`): sets the peer's best
hash unconditionally when the peer is active and forwards the update to the fetcher
(discarding its confirmation result). -/
def NetworkState.update_peer_block (s : NetworkState) (peer_id : PeerId) (hash : H256)
    (number : Nat) : NetworkState :=
  { s with
    active_peers := assocUpdate peer_id (fun peer => { peer with best_hash := hash })
      s.active_peers,
    state_fetcher := (s.state_fetcher.update_peer_block peer_id hash number).1 }

/-- Invoked when a new fork id is activated (`update_fork_id`). -/
def NetworkState.update_fork_id (s : NetworkState) (fork_id : ForkId) : NetworkState :=
  { s with discovery := s.discovery.update_fork_id fork_id }

/-- Invoked after a `NewBlock` message was received from the peer (`on_new_block`). -/
def NetworkState.on_new_block (s : NetworkState) (peer_id : PeerId) (hash : H256) :
    NetworkState :=
  { s with
    active_peers := assocUpdate peer_id
      (fun peer => { peer with blocks := peer.blocks.insert hash }) s.active_peers }

/-- Invoked for a `NewBlockHashes` broadcast message (`on_new_block_hashes`). -/
def NetworkState.on_new_block_hashes (s : NetworkState) (peer_id : PeerId)
    (hashes : List BlockHashNumber) : NetworkState :=
  { s with
    active_peers := assocUpdate peer_id
      (fun peer => { peer with blocks := peer.blocks.extend (hashes.map (fun b => b.hash)) })
      s.active_peers }

/-- Bans the IP address in the discovery service (`ban_ip_discovery`). -/
def NetworkState.ban_ip_discovery (s : NetworkState) (ip : IpAddr) : NetworkState :=
  { s with discovery := s.discovery.ban_ip ip }

/-- Bans the peer id and IP address in the discovery service (`ban_discovery`). -/
def NetworkState.ban_discovery (s : NetworkState) (peer_id : PeerId) (ip : IpAddr) :
    NetworkState :=
  { s with discovery := s.discovery.ban peer_id ip }

/-- Event hook for events received from the discovery service (`on_discovery_event`). -/
def NetworkState.on_discovery_event (s : NetworkState) (event : DiscoveryEvent) : NetworkState :=
  match event with
  | .Discovered peer_id socket_addr fork_id =>
    { s with queued_messages := s.queued_messages ++
        [StateAction.DiscoveredNode peer_id socket_addr fork_id] }
  | .EnrForkId peer_id fork_id =>
    { s with queued_messages := s.queued_messages ++
        [StateAction.DiscoveredEnrForkId peer_id fork_id] }

/-- Event hook for actions derived from the peer management set (`on_peer_action`). -/
def NetworkState.on_peer_action (s : NetworkState) (action : PeerAction) : NetworkState :=
  match action with
  | .Connect peer_id remote_addr =>
    { s with queued_messages := s.queued_messages ++ [StateAction.Connect remote_addr peer_id] }
  | .Disconnect peer_id reason =>
    { s with
      state_fetcher := s.state_fetcher.on_pending_disconnect peer_id,
      queued_messages := s.queued_messages ++ [StateAction.Disconnect peer_id reason] }
  | .DisconnectBannedIncoming peer_id =>
    { s with
      state_fetcher := s.state_fetcher.on_pending_disconnect peer_id,
      queued_messages := s.queued_messages ++ [StateAction.Disconnect peer_id none] }
  | .DiscoveryBanPeerId peer_id ip_addr => s.ban_discovery peer_id ip_addr
  | .DiscoveryBanIp ip_addr => s.ban_ip_discovery ip_addr
  | .PeerAdded peer_id =>
    { s with queued_messages := s.queued_messages ++ [StateAction.PeerAdded peer_id] }
  | .PeerRemoved peer_id =>
    { s with queued_messages := s.queued_messages ++ [StateAction.PeerRemoved peer_id] }
  | .BanPeer _ => s
  | .UnBanPeer _ => s

/-- The session message built by `handle_block_request` for the given request. -/
def sessionMessage : BlockRequest → PeerRequest
  | .GetBlockHeaders req => PeerRequest.GetBlockHeaders req
  | .GetBlockBodies req => PeerRequest.GetBlockBodies req

/-- The fresh (still pending) response half built by `handle_block_request`. -/
def freshResponse : BlockRequest → PeerResponse
  | .GetBlockHeaders _ => { kind := RespKind.headers, resolved := none }
  | .GetBlockBodies _ => { kind := RespKind.bodies, resolved := none }

/-- Sends the message to the peer's session and queues in a response
(`handle_block_request`): a non-blocking send on the session channel plus an unconditional
overwrite of `pending_response`; a no-op for peers absent from the active table. -/
def NetworkState.handle_block_request (s : NetworkState) (peer : PeerId)
    (request : BlockRequest) : NetworkState :=
  { s with
    active_peers := assocUpdate peer (fun p =>
      { p with
        request_tx := { to_session_tx := p.request_tx.to_session_tx.try_send (sessionMessage request) },
        pending_response := some (freshResponse request) }) s.active_peers }

/-- Handles the outcome of a processed response (`on_block_response_outcome`). -/
def NetworkState.on_block_response_outcome (s : NetworkState) (outcome : BlockResponseOutcome) :
    NetworkState × Option StateAction :=
  match outcome with
  | .Request peer request => (s.handle_block_request peer request, none)
  | .BadResponse peer reputation_change =>
    ({ s with peers_manager := s.peers_manager.apply_reputation_change peer reputation_change },
     none)

/-- Invoked when a response was received from a connected peer (`on_eth_response`). -/
def NetworkState.on_eth_response (s : NetworkState) (peer : PeerId) (resp : PeerResponseResult) :
    NetworkState × Option StateAction :=
  match resp.kind with
  | .headers =>
    let r := s.state_fetcher.on_block_headers_response peer resp.res
    let s' := { s with state_fetcher := r.1 }
    match r.2 with
    | none => (s', none)
    | some outcome => s'.on_block_response_outcome outcome
  | .bodies =>
    let r := s.state_fetcher.on_block_bodies_response peer resp.res
    let s' := { s with state_fetcher := r.1 }
    match r.2 with
    | none => (s', none)
    | some outcome => s'.on_block_response_outcome outcome

/-- Result of one `poll` call: an emitted action (`Poll::Ready`) or suspension
(`Poll::Pending`). -/
inductive PollResult where
  | ready (action : StateAction)
  | pending
deriving DecidableEq

/-- Whether a peer's pending response future would resolve when next polled. -/
def resolvesNow (peer : ActivePeer) : Bool :=
  match peer.pending_response with
  | some r => r.resolved.isSome
  | none => false

/-- Collect pass of `poll` over the peer table ("need to buffer results here to make borrow
checker happy"): takes every resolved pending response (restoring unresolved ones) and
returns the updated entries together with the closed-session peer ids and the received
responses, both in iteration order. -/
def collectResponses : List (PeerId × ActivePeer) →
    List (PeerId × ActivePeer) × List PeerId × List (PeerId × PeerResponseResult)
  | [] => ([], [], [])
  | (peer_id, peer) :: rest =>
    let r := collectResponses rest
    match peer.pending_response with
    | none => ((peer_id, peer) :: r.1, r.2.1, r.2.2)
    | some resp =>
      match resp.resolved with
      | none => ((peer_id, peer) :: r.1, r.2.1, r.2.2)
      | some res =>
        let peer' := { peer with pending_response := none }
        if res.closed_channel then
          ((peer_id, peer') :: r.1, peer_id :: r.2.1, r.2.2)
        else
          ((peer_id, peer') :: r.1, r.2.1, (peer_id, { kind := resp.kind, res := res }) :: r.2.2)

/-- Applies one received response: `on_eth_response` plus queueing of any resulting action
(the body of `for (peer_id, resp) in received_responses` in `poll`). -/
def NetworkState.apply_response (st : NetworkState) (pr : PeerId × PeerResponseResult) :
    NetworkState :=
  let r := st.on_eth_response pr.1 pr.2
  match r.2 with
  | some action => { r.1 with queued_messages := r.1.queued_messages ++ [action] }
  | none => r.1

/-- The peer-response pass of `poll`: collect-then-apply — session closures first, then
received responses through `on_eth_response`, queueing any resulting actions. -/
def NetworkState.poll_peer_responses (s : NetworkState) : NetworkState :=
  let c := collectResponses s.active_peers
  let s1 := { s with active_peers := c.1 }
  let s2 := c.2.1.foldl NetworkState.on_session_closed s1
  c.2.2.foldl NetworkState.apply_response s2

/-- Drains the discovery source (`while let Poll::Ready(discovery) = self.discovery.poll`). -/
def NetworkState.poll_discovery (s : NetworkState) : NetworkState :=
  let evs := s.discovery.events
  let s0 := { s with discovery := { s.discovery with events := [] } }
  evs.foldl NetworkState.on_discovery_event s0

/-- Applies one fetcher event (the body of the fetcher `while let` in `poll`). -/
def NetworkState.apply_fetch_action (st : NetworkState) (a : FetchAction) : NetworkState :=
  match a with
  | FetchAction.BlockRequest peer_id request => st.handle_block_request peer_id request

/-- Drains the fetcher source (`while let Poll::Ready(action) = self.state_fetcher.poll`). -/
def NetworkState.poll_fetcher (s : NetworkState) : NetworkState :=
  let acts := s.state_fetcher.actions
  let s0 := { s with state_fetcher := { s.state_fetcher with actions := [] } }
  acts.foldl NetworkState.apply_fetch_action s0

/-- Drains the peer-lifecycle source (`while let Poll::Ready(action) = self.peers_manager.poll`). -/
def NetworkState.poll_peers_manager (s : NetworkState) : NetworkState :=
  let evs := s.peers_manager.events
  let s0 := { s with peers_manager := { s.peers_manager with events := [] } }
  evs.foldl NetworkState.on_peer_action s0

/-- One call to `NetworkState::poll`. The source's outer `loop` performs at most two passes
per call: if the buffered queue is non-empty, the front action is returned immediately;
otherwise all four sources are pumped once (each drained fully) and the loop either pops a
freshly queued action at the top of its second pass or suspends with `Poll::Pending`. -/
def NetworkState.poll (s : NetworkState) : PollResult × NetworkState :=
  match s.queued_messages with
  | action :: rest => (PollResult.ready action, { s with queued_messages := rest })
  | [] =>
    let s4 := s.poll_discovery.poll_fetcher.poll_peer_responses.poll_peers_manager
    match s4.queued_messages with
    | [] => (PollResult.pending, s4)
    | action :: rest => (PollResult.ready action, { s4 with queued_messages := rest })

/-- A sealed header, reduced to the fields this queue reads. -/
structure SealedHeader where
  number : Nat
  hash : H256
deriving DecidableEq

/-- One in-flight `BodiesRequestFuture` (its source, `bodies/request.rs`, is not among the
provided files): the client and consensus capabilities are opaque, kept together with the
header range the future was created over. -/
structure BodiesRequestEntry where
  client : Nat
  consensus : Nat
  headers : List SealedHeader
deriving DecidableEq

/-- The block-body download queue (`BodiesRequestQueue`): the unordered set of in-flight
range downloads plus the last (highest) requested block number. Metrics are omitted. -/
structure BodiesRequestQueue where
  inner : List BodiesRequestEntry
  last_requested_block_number : Option Nat
deriving DecidableEq

/-- Creates an empty queue (`BodiesRequestQueue::new`). -/
def BodiesRequestQueue.new : BodiesRequestQueue :=
  { inner := [], last_requested_block_number := none }

/-- Returns `true` if the queue is empty (`is_empty`). -/
def BodiesRequestQueue.is_empty (q : BodiesRequestQueue) : Bool :=
  q.inner.isEmpty

/-- Returns the number of queued requests (`len`). -/
def BodiesRequestQueue.len (q : BodiesRequestQueue) : Nat :=
  q.inner.length

/-- Clears the inner queue and related data (`clear`). -/
def BodiesRequestQueue.clear (_q : BodiesRequestQueue) : BodiesRequestQueue :=
  { inner := [], last_requested_block_number := none }

/-- Adds a new request to the queue (`push_new_request`); expects a sorted list of headers.
The high-water mark update mirrors
`request.last().map(|last| match self.last_requested_block_number { Some(num) =>
last.number.max(num), None => last.number }).or(self.last_requested_block_number)`. -/
def BodiesRequestQueue.push_new_request (q : BodiesRequestQueue) (client consensus : Nat)
    (request : List SealedHeader) : BodiesRequestQueue :=
  { inner := q.inner ++ [{ client := client, consensus := consensus, headers := request }],
    last_requested_block_number :=
      match request.getLast? with
      | some last =>
        some (match q.last_requested_block_number with
          | some num => max last.number num
          | none => last.number)
      | none => q.last_requested_block_number }

/-- Peers targeted by full-block `NewBlock` actions within an action list. -/
def newBlockTargets (acts : List StateAction) : List PeerId :=
  acts.filterMap (fun a => match a with
    | StateAction.NewBlock peer_id _ => some peer_id
    | _ => none)

/-- Actions appended to the buffered queue by one call, given the state before the call. -/
def appendedActions (before after : NetworkState) : List StateAction :=
  after.queued_messages.drop before.queued_messages.length

/-- A peer's known-block cache is well-formed: fixed capacity 512 and within bounds. -/
def cacheOk (peer : ActivePeer) : Prop :=
  peer.blocks.limit = PEER_BLOCK_CACHE_LIMIT ∧
    peer.blocks.inner.length ≤ PEER_BLOCK_CACHE_LIMIT

/-- Every active peer's known-block cache is well-formed. -/
def StateCachesOk (s : NetworkState) : Prop :=
  ∀ e ∈ s.active_peers, cacheOk e.2

instance (peer : ActivePeer) : Decidable (cacheOk peer) := by
  unfold cacheOk
  exact inferInstance

instance (s : NetworkState) : Decidable (StateCachesOk s) := by
  unfold StateCachesOk
  exact inferInstance

/-- An open session channel with some spare capacity, for concrete evaluations. -/
def sampleChannel : Channel :=
  { capacity := 4, closed := false, queue := [] }

/-- A request sender over `sampleChannel`. -/
def sampleSender : PeerRequestSender :=
  { to_session_tx := sampleChannel }

/-- A freshly activated peer with an empty known-block cache. -/
def samplePeer : ActivePeer :=
  { best_hash := 0, capabilities := [], request_tx := sampleSender, pending_response := none,
    blocks := LruCache.new PEER_BLOCK_CACHE_LIMIT }

/-- A fetcher with no tracked peers and no pending bookkeeping. -/
def sampleFetcher : StateFetcher :=
  { peers := [], actions := [], inflight := [], delivered := [], disconnecting := [] }

/-- A quiescent discovery service. -/
def sampleDiscovery : Discovery :=
  { events := [], banned_peers := [], banned_ips := [], local_fork_id := none }

/-- A quiescent peer-lifecycle manager. -/
def samplePeersManager : PeersManager :=
  { events := [], reputation := [] }

/-- A quiescent network state with no peers. -/
def baseState : NetworkState :=
  { active_peers := [], peers_manager := samplePeersManager, queued_messages := [],
    client := [], discovery := sampleDiscovery, genesis_hash := 0,
    state_fetcher := sampleFetcher }

/-- A fresh block message for concrete evaluations. -/
def sampleMsg : NewBlockMessage :=
  { hash := 100, block := { block := { header := { number := 7 } }, td := 0 } }

/-- A state with three active peers, none of which knows any block yet. -/
def threePeerState : NetworkState :=
  { baseState with active_peers := [(1, samplePeer), (2, samplePeer), (3, samplePeer)] }

/-- Same peer table and fetcher as `threePeerState` but different unrelated components. -/
def threePeerStateVariant : NetworkState :=
  { threePeerState with
    genesis_hash := 77,
    queued_messages := [StateAction.PeerAdded 9],
    client := [(5, 55)] }

/-- A peer whose pending response future resolves to a channel-closed error when polled. -/
def closedRespPeer : ActivePeer :=
  { samplePeer with
    pending_response := some
      { kind := RespKind.bodies,
        resolved := some (RequestOutcome.err RequestError.channelClosed) } }

/-- A state with a single peer (id 7) whose in-flight request (requester id 42) is about to
observe the session channel closing. -/
def c5State : NetworkState :=
  { baseState with
    active_peers := [(7, closedRespPeer)],
    state_fetcher :=
      { sampleFetcher with
        peers := [(7, { best_hash := 3, best_number := 1, timeout := 0 })],
        inflight := [(7, 42)] } }

theorem assocFind_update_self {β : Type} (k : Nat) (f : β → β) (l : List (Nat × β)) :
    assocFind k (assocUpdate k f l) = (assocFind k l).map f := by
  induction l with
  | nil => rfl
  | cons hd tl ih =>
    obtain ⟨k', v⟩ := hd
    by_cases h : k' = k
    · simp [assocUpdate, assocFind, h]
    · simp [assocUpdate, assocFind, h, ih]

theorem assocFind_update_ne {β : Type} {q k : Nat} (h : q ≠ k) (f : β → β)
    (l : List (Nat × β)) : assocFind q (assocUpdate k f l) = assocFind q l := by
  induction l with
  | nil => rfl
  | cons hd tl ih =>
    obtain ⟨k', v⟩ := hd
    simp only [assocUpdate]
    by_cases hk : k' = k
    · rw [if_pos hk]
      have hne : ¬ k' = q := fun hh => h (by rw [← hh, hk])
      simp only [assocFind, if_neg hne]
    · rw [if_neg hk]
      by_cases hq : k' = q
      · simp only [assocFind, if_pos hq]
      · simp only [assocFind, if_neg hq, ih]

theorem assocUpdate_of_find_none {β : Type} (k : Nat) (f : β → β) (l : List (Nat × β))
    (h : assocFind k l = none) : assocUpdate k f l = l := by
  induction l with
  | nil => rfl
  | cons hd tl ih =>
    obtain ⟨k', v⟩ := hd
    by_cases hk : k' = k
    · simp [assocFind, hk] at h
    · simp only [assocFind, if_neg hk] at h
      simp [assocUpdate, hk, ih h]

theorem assocFind_of_mem_keys {β : Type} {p : Nat} {l : List (Nat × β)}
    (h : p ∈ l.map Prod.fst) : ∃ v, assocFind p l = some v := by
  induction l with
  | nil => simp at h
  | cons hd tl ih =>
    obtain ⟨k', v⟩ := hd
    by_cases hk : k' = p
    · exact ⟨v, by simp [assocFind, hk]⟩
    · simp only [List.map_cons, List.mem_cons] at h
      rcases h with h | h

      · exact absurd h.symm hk
      · obtain ⟨w, hw⟩ := ih h
        exact ⟨w, by simp [assocFind, hk, hw]⟩

theorem assocRemove_append_not_mem {β : Type} {p : Nat} {x : β} (pre post : List (Nat × β))
    (hpre : p ∉ pre.map Prod.fst) :
    assocRemove p (pre ++ (p, x) :: post) = pre ++ post := by
  induction pre with
  | nil => simp [assocRemove]
  | cons hd tl ih =>
    obtain ⟨k', v⟩ := hd
    simp only [List.map_cons, List.mem_cons, not_or] at hpre
    have hne : ¬ k' = p := fun hh => hpre.1 hh.symm
    simp [assocRemove, hne, ih hpre.2]

/-- C4: `push_new_request` sets the high-water mark to `max(previous mark, last header's
number)` (to the last header's number if the mark was unset), never decreases it, and leaves
it unchanged for an empty header list. -/
theorem c4_high_water_mark (q : BodiesRequestQueue) (client consensus : Nat)
    (request : List SealedHeader) :
    (∀ last, request.getLast? = some last →
      (q.push_new_request client consensus request).last_requested_block_number =
        some (match q.last_requested_block_number with
          | some num => max last.number num
          | none => last.number)) ∧
    (∀ m, q.last_requested_block_number = some m →
      ∃ m', (q.push_new_request client consensus request).last_requested_block_number =
          some m' ∧ m ≤ m') ∧
    (request = [] →
      (q.push_new_request client consensus request).last_requested_block_number =
        q.last_requested_block_number) := by
  refine ⟨?_, ?_, ?_⟩
  · intro last h
    simp [BodiesRequestQueue.push_new_request, h]
  · intro m hm
    cases hl : request.getLast? with
    | none => exact ⟨m, by simp [BodiesRequestQueue.push_new_request, hl, hm], le_refl m⟩
    | some last =>
      exact ⟨max last.number m,
        by simp [BodiesRequestQueue.push_new_request, hl, hm], le_max_right _ _⟩
  · intro h
    subst h
    simp [BodiesRequestQueue.push_new_request]

/-- Witness for C4 at a concrete queue whose mark is 10, pushing a range ending at 4: the
mark stays at `max 4 10 = 10`. -/
theorem c4_witness :
    ({ inner := [], last_requested_block_number := some 10 } :
        BodiesRequestQueue).last_requested_block_number = some 10 ∧
    ∃ m', (({ inner := [], last_requested_block_number := some 10 } :
        BodiesRequestQueue).push_new_request 0 0
          [{ number := 4, hash := 44 }]).last_requested_block_number = some m' ∧ 10 ≤ m' :=
  ⟨rfl, (c4_high_water_mark { inner := [], last_requested_block_number := some 10 } 0 0
    [{ number := 4, hash := 44 }]).2.1 10 rfl⟩

/-- C3: activating a session for a peer id already present in the active table fails loudly
with the source's invariant-violation message instead of overwriting the existing entry. -/
theorem c3_duplicate_session_activation_fails (s : NetworkState) (peer : PeerId)
    (capabilities : List Nat) (status : Status) (request_tx : PeerRequestSender) (timeout : Nat)
    (h : (assocFind peer s.active_peers).isSome = true) :
    s.on_session_activated peer capabilities status request_tx timeout =
      Except.error "Already connected; not possible" := by
  simp [NetworkState.on_session_activated, h]

/-- Witness for C3: re-activating peer 1 of `threePeerState` is rejected. -/
theorem c3_witness :
    (assocFind 1 threePeerState.active_peers).isSome = true ∧
    threePeerState.on_session_activated 1 [] { blockhash := 5 } sampleSender 0 =
      Except.error "Already connected; not possible" :=
  ⟨by decide,
   c3_duplicate_session_activation_fails threePeerState 1 [] { blockhash := 5 } sampleSender 0
     (by decide)⟩

/-- C10: the coordinator's `update_peer_block` sets the peer's best hash unconditionally
whenever the peer is in the active table (no height-advance check for any `number`), leaves
every other peer's entry alone, and leaves the table unchanged when the peer is absent. -/
theorem c10_update_peer_block_unconditional (s : NetworkState) (peer_id : PeerId) (hash : H256)
    (number : Nat) :
    (∀ peer, assocFind peer_id s.active_peers = some peer →
      assocFind peer_id (s.update_peer_block peer_id hash number).active_peers =
        some { peer with best_hash := hash }) ∧
    (∀ q, q ≠ peer_id →
      assocFind q (s.update_peer_block peer_id hash number).active_peers =
        assocFind q s.active_peers) ∧
    (assocFind peer_id s.active_peers = none →
      (s.update_peer_block peer_id hash number).active_peers = s.active_peers) := by
  refine ⟨?_, ?_, ?_⟩
  · intro peer h
    show assocFind peer_id (assocUpdate peer_id _ s.active_peers) = _
    rw [assocFind_update_self, h]
    rfl
  · intro q hq
    exact assocFind_update_ne hq _ _
  · intro h
    exact assocUpdate_of_find_none _ _ _ h

/-- Witness for C10: updating peer 2 of `threePeerState` with hash 9 at height 0 (no height
advance is possible, the fetcher tracks nobody) still rewrites its best hash to 9. -/
theorem c10_witness :
    assocFind 2 threePeerState.active_peers = some samplePeer ∧
    assocFind 2 (threePeerState.update_peer_block 2 9 0).active_peers =
      some { samplePeer with best_hash := 9 } :=
  ⟨by decide,
   (c10_update_peer_block_unconditional threePeerState 2 9 0).1 samplePeer (by decide)⟩

/-- C6: `handle_block_request` is a no-op for an unknown peer; for an active peer it attempts
a non-blocking send of the session message (which changes nothing when the channel is full
or closed) and unconditionally overwrites `pending_response` with the fresh response half;
no other peer entry and no other coordinator component changes. -/
theorem c6_handle_block_request_spec (s : NetworkState) (peer : PeerId)
    (request : BlockRequest) :
    (assocFind peer s.active_peers = none → s.handle_block_request peer request = s) ∧
    (∀ p, assocFind peer s.active_peers = some p →
      assocFind peer (s.handle_block_request peer request).active_peers =
        some { p with
          request_tx :=
            { to_session_tx := p.request_tx.to_session_tx.try_send (sessionMessage request) },
          pending_response := some (freshResponse request) }) ∧
    (∀ p, assocFind peer s.active_peers = some p →
      (p.request_tx.to_session_tx.closed = true ∨
        p.request_tx.to_session_tx.capacity ≤ p.request_tx.to_session_tx.queue.length) →
      p.request_tx.to_session_tx.try_send (sessionMessage request) =
        p.request_tx.to_session_tx) ∧
    (∀ q, q ≠ peer →
      assocFind q (s.handle_block_request peer request).active_peers =
        assocFind q s.active_peers) ∧
    (s.handle_block_request peer request).queued_messages = s.queued_messages ∧
    (s.handle_block_request peer request).state_fetcher = s.state_fetcher := by
  refine ⟨?_, ?_, ?_, ?_, rfl, rfl⟩
  · intro h
    show ({ s with active_peers := assocUpdate peer _ s.active_peers } : NetworkState) = s
    rw [assocUpdate_of_find_none _ _ _ h]
  · intro p h
    show assocFind peer (assocUpdate peer _ s.active_peers) = _
    rw [assocFind_update_self, h]
    rfl
  · intro p h hfull
    unfold Channel.try_send
    rw [if_pos]
    rcases hfull with hc | hl
    · exact Or.inl (by simp [hc])
    · exact Or.inr hl
  · intro q hq
    exact assocFind_update_ne hq _ _

/-- Witness for C6: dispatching a headers request to peer 3 of `threePeerState`, whose
previous pending response slot is empty, stores the fresh pending response and enqueues the
session message. -/
theorem c6_witness :
    assocFind 3 threePeerState.active_peers = some samplePeer ∧
    assocFind 3 (threePeerState.handle_block_request 3
        (BlockRequest.GetBlockHeaders 5)).active_peers =
      some { samplePeer with
        request_tx := { to_session_tx := sampleChannel.try_send (PeerRequest.GetBlockHeaders 5) },
        pending_response := some { kind := RespKind.headers, resolved := none } } :=
  ⟨by decide,
   (c6_handle_block_request_spec threePeerState 3 (BlockRequest.GetBlockHeaders 5)).2.1
     samplePeer (by decide)⟩

theorem assocFind_cons_self {β : Type} (k : Nat) (v : β) (l : List (Nat × β)) :
    assocFind k ((k, v) :: l) = some v := by
  simp [assocFind]

theorem assocFind_cons_ne {β : Type} {k' k : Nat} (h : ¬ k' = k) (v : β) (l : List (Nat × β)) :
    assocFind k ((k', v) :: l) = assocFind k l := by
  simp [assocFind, h]

theorem update_peer_block_snd (f : StateFetcher) (pid : PeerId) (h : H256) (n : Nat) :
    (f.update_peer_block pid h n).2 = f.height_advance pid n := by
  unfold StateFetcher.update_peer_block
  cases hx : f.height_advance pid n <;> simp [hx]

theorem height_advance_update_ne {q pid : PeerId} (hq : q ≠ pid) (f : StateFetcher)
    (h : H256) (n m : Nat) :
    ((f.update_peer_block pid h n).1).height_advance q m = f.height_advance q m := by
  unfold StateFetcher.update_peer_block
  cases hx : f.height_advance pid n
  · simp [hx]
  · simp only [hx, if_true]
    unfold StateFetcher.height_advance
    rw [assocFind_update_ne hq]

theorem announceHashLoop_blocks (msg : NewBlockMessage) (hashes : NewBlockHashes) :
    ∀ (peers : List (PeerId × ActivePeer)) (fetcher : StateFetcher),
      ((announceHashLoop fetcher msg hashes peers).2.1).map (fun e => (e.1, e.2.blocks)) =
        peers.map (fun e => (e.1, e.2.blocks)) := by
  intro peers
  induction peers with
  | nil => intro fetcher; rfl
  | cons hd rest ih =>
    intro fetcher
    obtain ⟨pid, peer⟩ := hd
    by_cases hc : peer.blocks.contains msg.hash = true
    · simp [announceHashLoop, hc, ih]
    · simp [announceHashLoop, hc, ih]

theorem announceHashLoop_acts (msg : NewBlockMessage) (hashes : NewBlockHashes) :
    ∀ (peers : List (PeerId × ActivePeer)) (fetcher : StateFetcher),
      (announceHashLoop fetcher msg hashes peers).2.2 =
        (peers.filter (fun e => !(e.2.blocks.contains msg.hash))).map
          (fun e => StateAction.NewBlockHashes e.1 hashes) := by
  intro peers
  induction peers with
  | nil => intro fetcher; rfl
  | cons hd rest ih =>
    intro fetcher
    obtain ⟨pid, peer⟩ := hd
    by_cases hc : peer.blocks.contains msg.hash = true
    · simp [announceHashLoop, hc, ih, List.filter_cons]
    · simp [announceHashLoop, hc, ih, List.filter_cons]

theorem announceHashLoop_lookup (msg : NewBlockMessage) (hashes : NewBlockHashes) :
    ∀ (peers : List (PeerId × ActivePeer)) (fetcher : StateFetcher),
      (peers.map Prod.fst).Nodup → ∀ p peer, assocFind p peers = some peer →
      assocFind p (announceHashLoop fetcher msg hashes peers).2.1 =
        some { peer with best_hash :=
          if peer.blocks.contains msg.hash = false ∧
              fetcher.height_advance p msg.block.block.header.number = true
          then msg.hash else peer.best_hash } := by
  intro peers
  induction peers with
  | nil => intro fetcher _ p peer h; simp [assocFind] at h
  | cons hd rest ih =>
    intro fetcher hnd p peer hfind
    obtain ⟨pid, peer0⟩ := hd
    rw [List.map_cons, List.nodup_cons] at hnd
    by_cases hp : pid = p
    · subst hp
      rw [assocFind_cons_self] at hfind
      injection hfind with hpeer
      subst hpeer
      by_cases hc : peer0.blocks.contains msg.hash = true
      · simp only [announceHashLoop, if_pos hc]
        rw [assocFind_cons_self, hc]
        simp
      · have hcf : peer0.blocks.contains msg.hash = false := by
          simpa using hc
        simp only [announceHashLoop, if_neg hc]
        rw [assocFind_cons_self, hcf, update_peer_block_snd]
        simp
    · have hfind' : assocFind p rest = some peer := by
        rw [assocFind_cons_ne hp] at hfind
        exact hfind
      by_cases hc : peer0.blocks.contains msg.hash = true
      · simp only [announceHashLoop, if_pos hc]
        rw [assocFind_cons_ne hp]
        exact ih fetcher hnd.2 p peer hfind'
      · simp only [announceHashLoop, if_neg hc]
        rw [assocFind_cons_ne hp]
        rw [ih _ hnd.2 p peer hfind']
        rw [height_advance_update_ne (fun hh => hp hh.symm)]

theorem dropAppend {α : Type} (l1 l2 : List α) : (l1 ++ l2).drop l1.length = l2 := by
  induction l1 with
  | nil => rfl
  | cons hd tl _ => simp

theorem announce_hash_appended (s : NetworkState) (msg : NewBlockMessage) :
    appendedActions s (s.announce_new_block_hash msg) =
      (announceHashLoop s.state_fetcher msg
        [{ hash := msg.hash, number := msg.block.block.header.number }] s.active_peers).2.2 := by
  unfold appendedActions NetworkState.announce_new_block_hash
  exact dropAppend _ _

theorem announce_appended (s : NetworkState) (msg : NewBlockMessage) :
    appendedActions s (s.announce_new_block msg) =
      (announceLoop s.state_fetcher msg (intSqrt s.active_peers.length + 1) 0
        s.active_peers).2.2 := by
  unfold appendedActions NetworkState.announce_new_block
  exact dropAppend _ _

theorem natSqrtBelow_eq (n : Nat) : ∀ k, natSqrtBelow k n = min k (Nat.sqrt n) := by
  intro k
  induction k with
  | zero => simp [natSqrtBelow]
  | succ k ih =>
    by_cases h : (k + 1) * (k + 1) ≤ n
    · have hle : k + 1 ≤ Nat.sqrt n := Nat.le_sqrt.mpr h
      simp [natSqrtBelow, h, Nat.min_eq_left hle]
    · have hgt : Nat.sqrt n < k + 1 := by
        by_contra hc
        exact h (Nat.le_sqrt.mp (Nat.le_of_not_lt hc))
      rw [natSqrtBelow, if_neg h, ih, Nat.min_eq_right (Nat.le_of_lt_succ hgt),
        Nat.min_eq_right (Nat.le_of_lt hgt)]

theorem intSqrt_eq_sqrt (n : Nat) : intSqrt n = Nat.sqrt n := by
  rw [intSqrt, natSqrtBelow_eq, Nat.min_eq_right (Nat.sqrt_le_self n)]

theorem newBlockTargets_nil : newBlockTargets [] = [] := rfl

theorem newBlockTargets_cons_newblock (pid : PeerId) (msg : NewBlockMessage)
    (acts : List StateAction) :
    newBlockTargets (StateAction.NewBlock pid msg :: acts) = pid :: newBlockTargets acts := rfl

theorem announceLoop_budget (msg : NewBlockMessage) (np : Nat) :
    ∀ (peers : List (PeerId × ActivePeer)) (fetcher : StateFetcher) (count : Nat),
      (newBlockTargets (announceLoop fetcher msg np count peers).2.2).length ≤ np - count := by
  intro peers
  induction peers with
  | nil => intro fetcher count; simp [announceLoop, newBlockTargets_nil]
  | cons hd rest ih =>
    intro fetcher count
    obtain ⟨pid, peer⟩ := hd
    by_cases hc : peer.blocks.contains msg.hash = true
    · simp only [announceLoop, if_pos hc]
      exact ih fetcher count
    · by_cases hcount : count < np
      · by_cases hbreak : np ≤ count + 1
        · simp only [announceLoop, if_neg hc, if_pos hcount, if_pos hbreak,
            newBlockTargets_cons_newblock, newBlockTargets_nil]
          simp only [List.length_cons, List.length_nil]
          omega
        · simp only [announceLoop, if_neg hc, if_pos hcount, if_neg hbreak,
            newBlockTargets_cons_newblock]
          have := ih (fetcher.update_peer_block pid msg.hash msg.block.block.header.number).1
            (count + 1)
          simp only [List.length_cons]
          omega
      · simp only [announceLoop, if_neg hc, if_neg hcount, newBlockTargets_nil]
        simp

theorem announceLoop_sublist (msg : NewBlockMessage) (np : Nat) :
    ∀ (peers : List (PeerId × ActivePeer)) (fetcher : StateFetcher) (count : Nat),
      List.Sublist (newBlockTargets (announceLoop fetcher msg np count peers).2.2)
        (peers.map Prod.fst) := by
  intro peers
  induction peers with
  | nil => intro fetcher count; simp [announceLoop, newBlockTargets_nil]
  | cons hd rest ih =>
    intro fetcher count
    obtain ⟨pid, peer⟩ := hd
    rw [List.map_cons]
    by_cases hc : peer.blocks.contains msg.hash = true
    · simp only [announceLoop, if_pos hc]
      exact (ih fetcher count).cons pid
    · by_cases hcount : count < np
      · by_cases hbreak : np ≤ count + 1
        · simp only [announceLoop, if_neg hc, if_pos hcount, if_pos hbreak,
            newBlockTargets_cons_newblock, newBlockTargets_nil]
          exact (List.nil_sublist _).cons₂ pid
        · simp only [announceLoop, if_neg hc, if_pos hcount, if_neg hbreak,
            newBlockTargets_cons_newblock]
          exact (ih _ (count + 1)).cons₂ pid
      · simp only [announceLoop, if_neg hc, if_neg hcount, newBlockTargets_nil]
        exact List.nil_sublist _

theorem announceLoop_mem_targets (msg : NewBlockMessage) (np : Nat) :
    ∀ (peers : List (PeerId × ActivePeer)) (fetcher : StateFetcher) (count : Nat),
      (peers.map Prod.fst).Nodup → ∀ p peer, assocFind p peers = some peer →
      p ∈ newBlockTargets (announceLoop fetcher msg np count peers).2.2 →
      peer.blocks.contains msg.hash = false ∧
      assocFind p (announceLoop fetcher msg np count peers).2.1 =
        some { peer with
          best_hash := if fetcher.height_advance p msg.block.block.header.number = true
            then msg.hash else peer.best_hash,
          blocks := peer.blocks.insert msg.hash } := by
  intro peers
  induction peers with
  | nil => intro fetcher count _ p peer h; simp [assocFind] at h
  | cons hd rest ih =>
    intro fetcher count hnd p peer hfind hmem
    obtain ⟨pid, peer0⟩ := hd
    rw [List.map_cons, List.nodup_cons] at hnd
    by_cases hc : peer0.blocks.contains msg.hash = true
    · simp only [announceLoop, if_pos hc] at hmem ⊢
      by_cases hp : pid = p
      · subst hp
        exact absurd ((announceLoop_sublist msg np rest fetcher count).subset hmem) hnd.1
      · rw [assocFind_cons_ne hp] at hfind
        rw [assocFind_cons_ne hp]
        exact ih fetcher count hnd.2 p peer hfind hmem
    · by_cases hcount : count < np
      · by_cases hbreak : np ≤ count + 1
        · simp only [announceLoop, if_neg hc, if_pos hcount, if_pos hbreak,
            newBlockTargets_cons_newblock, newBlockTargets_nil] at hmem ⊢
          have hp : p = pid := by
            rcases List.mem_cons.mp hmem with h | h
            · exact h
            · simp at h
          subst hp
          rw [assocFind_cons_self] at hfind
          injection hfind with hpeer
          subst hpeer
          refine ⟨by simpa using hc, ?_⟩
          rw [assocFind_cons_self, update_peer_block_snd]
        · simp only [announceLoop, if_neg hc, if_pos hcount, if_neg hbreak,
            newBlockTargets_cons_newblock] at hmem ⊢
          by_cases hp : pid = p
          · subst hp
            rw [assocFind_cons_self] at hfind
            injection hfind with hpeer
            subst hpeer
            refine ⟨by simpa using hc, ?_⟩
            rw [assocFind_cons_self, update_peer_block_snd]
          · have hmem' : p ∈ newBlockTargets (announceLoop
                (fetcher.update_peer_block pid msg.hash msg.block.block.header.number).1
                msg np (count + 1) rest).2.2 := by
              rcases List.mem_cons.mp hmem with h | h
              · exact absurd h.symm hp
              · exact h
            rw [assocFind_cons_ne hp] at hfind
            rw [assocFind_cons_ne hp]
            have := ih _ (count + 1) hnd.2 p peer hfind hmem'
            rwa [height_advance_update_ne (fun hh => hp hh.symm)] at this
      · simp only [announceLoop, if_neg hc, if_neg hcount, newBlockTargets_nil] at hmem
        exact absurd hmem (List.not_mem_nil p)

theorem announceLoop_not_mem (msg : NewBlockMessage) (np : Nat) :
    ∀ (peers : List (PeerId × ActivePeer)) (fetcher : StateFetcher) (count : Nat),
      ∀ p peer, assocFind p peers = some peer →
      p ∉ newBlockTargets (announceLoop fetcher msg np count peers).2.2 →
      assocFind p (announceLoop fetcher msg np count peers).2.1 = some peer := by
  intro peers
  induction peers with
  | nil => intro fetcher count p peer h _; simp [assocFind] at h
  | cons hd rest ih =>
    intro fetcher count p peer hfind hnmem
    obtain ⟨pid, peer0⟩ := hd
    by_cases hc : peer0.blocks.contains msg.hash = true
    · simp only [announceLoop, if_pos hc] at hnmem ⊢
      by_cases hp : pid = p
      · subst hp
        rw [assocFind_cons_self] at hfind ⊢
        exact hfind
      · rw [assocFind_cons_ne hp] at hfind
        rw [assocFind_cons_ne hp]
        exact ih fetcher count p peer hfind hnmem
    · by_cases hcount : count < np
      · by_cases hbreak : np ≤ count + 1
        · simp only [announceLoop, if_neg hc, if_pos hcount, if_pos hbreak,
            newBlockTargets_cons_newblock, newBlockTargets_nil] at hnmem ⊢
          have hp : ¬ pid = p := fun hh => hnmem (hh ▸ List.mem_cons_self _ _)
          rw [assocFind_cons_ne hp] at hfind
          rw [assocFind_cons_ne hp]
          exact hfind
        · simp only [announceLoop, if_neg hc, if_pos hcount, if_neg hbreak,
            newBlockTargets_cons_newblock] at hnmem ⊢
          have hp : ¬ pid = p := fun hh => hnmem (hh ▸ List.mem_cons_self _ _)
          have hnmem' := fun h => hnmem (List.mem_cons_of_mem _ h)
          rw [assocFind_cons_ne hp] at hfind
          rw [assocFind_cons_ne hp]
          exact ih _ (count + 1) p peer hfind hnmem'
      · simp only [announceLoop, if_neg hc, if_neg hcount] at hnmem ⊢
        exact hfind

/-- C2: `announce_new_block` queues full-block `NewBlock` actions for at most
`⌊√N⌋ + 1` peers, never for a peer whose known-block cache already contains the hash; every
informed peer gets the hash inserted into its cache and its best hash set to the message's
hash exactly when the fetcher confirms a height advance; uninformed peers are untouched. -/
theorem c2_announce_new_block_bounded (s : NetworkState) (msg : NewBlockMessage)
    (hnd : (s.active_peers.map Prod.fst).Nodup) :
    (newBlockTargets (appendedActions s (s.announce_new_block msg))).length ≤
      Nat.sqrt s.active_peers.length + 1 ∧
    (∀ p ∈ newBlockTargets (appendedActions s (s.announce_new_block msg)), ∃ peer,
      assocFind p s.active_peers = some peer ∧
      peer.blocks.contains msg.hash = false ∧
      assocFind p (s.announce_new_block msg).active_peers =
        some { peer with
          best_hash := if s.state_fetcher.height_advance p msg.block.block.header.number = true
            then msg.hash else peer.best_hash,
          blocks := peer.blocks.insert msg.hash }) ∧
    (∀ p peer, p ∉ newBlockTargets (appendedActions s (s.announce_new_block msg)) →
      assocFind p s.active_peers = some peer →
      assocFind p (s.announce_new_block msg).active_peers = some peer) := by
  rw [announce_appended]
  refine ⟨?_, ?_, ?_⟩
  · have h := announceLoop_budget msg (intSqrt s.active_peers.length + 1) s.active_peers
      s.state_fetcher 0
    simpa [intSqrt_eq_sqrt] using h
  · intro p hp
    have hkey : p ∈ s.active_peers.map Prod.fst :=
      (announceLoop_sublist msg _ s.active_peers s.state_fetcher 0).subset hp
    obtain ⟨peer, hpeer⟩ := assocFind_of_mem_keys hkey
    obtain ⟨hcontains, hres⟩ := announceLoop_mem_targets msg _ s.active_peers s.state_fetcher 0
      hnd p peer hpeer hp
    exact ⟨peer, hpeer, hcontains, hres⟩
  · intro p peer hnp hfind
    exact announceLoop_not_mem msg _ s.active_peers s.state_fetcher 0 p peer hfind hnp

/-- Witness for C2 on `threePeerState`: exactly peers 1 and 2 (table order) are informed —
within the budget `⌊√3⌋ + 1 = 2` — and peer 1's cache afterwards contains the hash. -/
theorem c2_witness :
    (threePeerState.active_peers.map Prod.fst).Nodup ∧
    newBlockTargets (appendedActions threePeerState
      (threePeerState.announce_new_block sampleMsg)) = [1, 2] ∧
    (newBlockTargets (appendedActions threePeerState
      (threePeerState.announce_new_block sampleMsg))).length ≤
        Nat.sqrt threePeerState.active_peers.length + 1 :=
  ⟨by decide, by decide,
   (c2_announce_new_block_bounded threePeerState sampleMsg (by decide)).1⟩

theorem announce_active (s : NetworkState) (msg : NewBlockMessage) :
    (s.announce_new_block msg).active_peers =
      (announceLoop s.state_fetcher msg (intSqrt s.active_peers.length + 1) 0
        s.active_peers).2.1 := rfl

/-- C9: the full-block fan-out of `announce_new_block` is a function of the peer-table
contents and order, the fetcher state, and the message alone: two states agreeing on those
produce identical queued announcements (same peers, same order) and identical updated peer
tables, whatever their other components; the informed peers are moreover a subsequence of
the table's iteration order. -/
theorem c9_announce_deterministic (s1 s2 : NetworkState) (msg : NewBlockMessage)
    (hp : s1.active_peers = s2.active_peers) (hf : s1.state_fetcher = s2.state_fetcher) :
    appendedActions s1 (s1.announce_new_block msg) =
      appendedActions s2 (s2.announce_new_block msg) ∧
    (s1.announce_new_block msg).active_peers = (s2.announce_new_block msg).active_peers ∧
    List.Sublist (newBlockTargets (appendedActions s1 (s1.announce_new_block msg)))
      (s1.active_peers.map Prod.fst) := by
  refine ⟨?_, ?_, ?_⟩
  · rw [announce_appended, announce_appended, hp, hf]
  · rw [announce_active, announce_active, hp, hf]
  · rw [announce_appended]
    exact announceLoop_sublist msg _ s1.active_peers s1.state_fetcher 0

/-- Witness for C9: `threePeerState` and a variant with different genesis hash, action
backlog and chain reader produce identical fan-out actions. -/
theorem c9_witness :
    threePeerState.active_peers = threePeerStateVariant.active_peers ∧
    threePeerState.state_fetcher = threePeerStateVariant.state_fetcher ∧
    appendedActions threePeerState (threePeerState.announce_new_block sampleMsg) =
      appendedActions threePeerStateVariant
        (threePeerStateVariant.announce_new_block sampleMsg) :=
  ⟨by decide, by decide,
   (c9_announce_deterministic threePeerState threePeerStateVariant sampleMsg (by decide)
     (by decide)).1⟩

/-- C1 counterexample: with three active peers and empty caches, phase 1 informs only two
peers (fan-out `Nat.sqrt 3 + 1 = 2`); phase 2 queues a hash announcement for the third but
does not insert the hash into its known-block cache, so the claim that running
`announce_new_block` followed by `announce_new_block_hash` leaves every active peer's cache
containing the hash is false at this input. -/
theorem c1_counterexample :
    ((threePeerState.announce_new_block sampleMsg).announce_new_block_hash
        sampleMsg).active_peers.all (fun e => e.2.blocks.contains sampleMsg.hash) = false := by
  decide

/-- C1 (amended): `announce_new_block_hash` queues a hash-only `NewBlockHashes` action for
exactly the active peers whose known-block cache does not contain the hash (in table order)
and updates each such peer's best hash exactly as phase 1 does (only on a fetcher-confirmed
height advance), but — unlike phase 1 — it inserts nothing into any peer's known-block
cache: every peer's cache (and the table order) is left unchanged. -/
theorem c1_announce_new_block_hash_amended (s : NetworkState) (msg : NewBlockMessage) :
    ((s.announce_new_block_hash msg).active_peers.map (fun e => (e.1, e.2.blocks)) =
      s.active_peers.map (fun e => (e.1, e.2.blocks))) ∧
    (appendedActions s (s.announce_new_block_hash msg) =
      (s.active_peers.filter (fun e => !(e.2.blocks.contains msg.hash))).map
        (fun e => StateAction.NewBlockHashes e.1
          [{ hash := msg.hash, number := msg.block.block.header.number }])) ∧
    (∀ p peer, (s.active_peers.map Prod.fst).Nodup → assocFind p s.active_peers = some peer →
      assocFind p (s.announce_new_block_hash msg).active_peers =
        some { peer with best_hash :=
          if peer.blocks.contains msg.hash = false ∧
              s.state_fetcher.height_advance p msg.block.block.header.number = true
          then msg.hash else peer.best_hash }) := by
  refine ⟨?_, ?_, ?_⟩
  · exact announceHashLoop_blocks msg _ s.active_peers s.state_fetcher
  · rw [announce_hash_appended]
    exact announceHashLoop_acts msg _ s.active_peers s.state_fetcher
  · intro p peer hnd hfind
    exact announceHashLoop_lookup msg _ s.active_peers s.state_fetcher hnd p peer hfind

/-- Witness for the amended C1: on `threePeerState` after phase 1, phase 2 leaves peer 3's
(still empty) cache unchanged while queueing it a hash announcement. -/
theorem c1_witness :
    (((threePeerState.announce_new_block sampleMsg).active_peers.map
        Prod.fst).Nodup) ∧
    assocFind 3 (threePeerState.announce_new_block sampleMsg).active_peers =
      some samplePeer ∧
    assocFind 3 ((threePeerState.announce_new_block sampleMsg).announce_new_block_hash
        sampleMsg).active_peers = some samplePeer :=
  ⟨by decide, by decide, by
    have h := (c1_announce_new_block_hash_amended
      (threePeerState.announce_new_block sampleMsg) sampleMsg).2.2 3 samplePeer
      (by decide) (by decide)
    rw [h]
    decide⟩

theorem on_discovery_event_parts (s : NetworkState) (e : DiscoveryEvent) :
    (s.on_discovery_event e).discovery = s.discovery ∧
    (s.on_discovery_event e).state_fetcher = s.state_fetcher ∧
    (s.on_discovery_event e).peers_manager = s.peers_manager ∧
    (s.on_discovery_event e).active_peers = s.active_peers := by
  cases e <;> exact ⟨rfl, rfl, rfl, rfl⟩

theorem foldl_discovery_parts (evs : List DiscoveryEvent) :
    ∀ st : NetworkState,
      (evs.foldl NetworkState.on_discovery_event st).discovery = st.discovery ∧
      (evs.foldl NetworkState.on_discovery_event st).state_fetcher = st.state_fetcher ∧
      (evs.foldl NetworkState.on_discovery_event st).peers_manager = st.peers_manager ∧
      (evs.foldl NetworkState.on_discovery_event st).active_peers = st.active_peers := by
  induction evs with
  | nil => intro st; exact ⟨rfl, rfl, rfl, rfl⟩
  | cons e tl ih =>
    intro st
    have h1 := on_discovery_event_parts st e
    have h2 := ih (st.on_discovery_event e)
    exact ⟨h2.1.trans h1.1, h2.2.1.trans h1.2.1, h2.2.2.1.trans h1.2.2.1,
      h2.2.2.2.trans h1.2.2.2⟩

theorem poll_discovery_parts (s : NetworkState) :
    (s.poll_discovery).discovery = { s.discovery with events := [] } ∧
    (s.poll_discovery).state_fetcher = s.state_fetcher ∧
    (s.poll_discovery).peers_manager = s.peers_manager ∧
    (s.poll_discovery).active_peers = s.active_peers :=
  foldl_discovery_parts s.discovery.events _

theorem apply_fetch_action_parts (s : NetworkState) (a : FetchAction) :
    (s.apply_fetch_action a).discovery = s.discovery ∧
    (s.apply_fetch_action a).state_fetcher = s.state_fetcher ∧
    (s.apply_fetch_action a).peers_manager = s.peers_manager ∧
    (s.apply_fetch_action a).queued_messages = s.queued_messages := by
  cases a
  exact ⟨rfl, rfl, rfl, rfl⟩

theorem foldl_fetch_parts (acts : List FetchAction) :
    ∀ st : NetworkState,
      (acts.foldl NetworkState.apply_fetch_action st).discovery = st.discovery ∧
      (acts.foldl NetworkState.apply_fetch_action st).state_fetcher = st.state_fetcher ∧
      (acts.foldl NetworkState.apply_fetch_action st).peers_manager = st.peers_manager ∧
      (acts.foldl NetworkState.apply_fetch_action st).queued_messages = st.queued_messages := by
  induction acts with
  | nil => intro st; exact ⟨rfl, rfl, rfl, rfl⟩
  | cons a tl ih =>
    intro st
    have h1 := apply_fetch_action_parts st a
    have h2 := ih (st.apply_fetch_action a)
    exact ⟨h2.1.trans h1.1, h2.2.1.trans h1.2.1, h2.2.2.1.trans h1.2.2.1,
      h2.2.2.2.trans h1.2.2.2⟩

theorem poll_fetcher_parts (s : NetworkState) :
    (s.poll_fetcher).discovery = s.discovery ∧
    (s.poll_fetcher).state_fetcher = { s.state_fetcher with actions := [] } ∧
    (s.poll_fetcher).peers_manager = s.peers_manager ∧
    (s.poll_fetcher).queued_messages = s.queued_messages :=
  foldl_fetch_parts s.state_fetcher.actions _

theorem on_session_closed_parts (s : NetworkState) (p : PeerId) :
    (s.on_session_closed p).discovery = s.discovery ∧
    (s.on_session_closed p).peers_manager = s.peers_manager ∧
    (s.on_session_closed p).queued_messages = s.queued_messages ∧
    (s.on_session_closed p).state_fetcher.actions = s.state_fetcher.actions :=
  ⟨rfl, rfl, rfl, rfl⟩

theorem assocRemove_subset {β : Type} (k : Nat) (l : List (Nat × β)) :
    ∀ e ∈ assocRemove k l, e ∈ l := by
  induction l with
  | nil => intro e he; exact absurd he (List.not_mem_nil e)
  | cons hd tl ih =>
    intro e he
    obtain ⟨k', v⟩ := hd
    by_cases hk : k' = k
    · simp only [assocRemove, if_pos hk] at he
      exact List.mem_cons_of_mem _ he
    · simp only [assocRemove, if_neg hk] at he
      rcases List.mem_cons.mp he with h | h
      · exact h ▸ List.mem_cons_self _ _
      · exact List.mem_cons_of_mem _ (ih e h)

theorem foldl_closed_parts (ps : List PeerId) :
    ∀ st : NetworkState,
      (ps.foldl NetworkState.on_session_closed st).discovery = st.discovery ∧
      (ps.foldl NetworkState.on_session_closed st).peers_manager = st.peers_manager ∧
      (ps.foldl NetworkState.on_session_closed st).queued_messages = st.queued_messages ∧
      (ps.foldl NetworkState.on_session_closed st).state_fetcher.actions =
        st.state_fetcher.actions ∧
      (∀ e ∈ (ps.foldl NetworkState.on_session_closed st).active_peers,
        e ∈ st.active_peers) := by
  induction ps with
  | nil => intro st; exact ⟨rfl, rfl, rfl, rfl, fun e he => he⟩
  | cons p tl ih =>
    intro st
    have h1 := on_session_closed_parts st p
    have h2 := ih (st.on_session_closed p)
    refine ⟨h2.1.trans h1.1, h2.2.1.trans h1.2.1, h2.2.2.1.trans h1.2.2.1,
      h2.2.2.2.1.trans h1.2.2.2, ?_⟩
    intro e he
    exact assocRemove_subset _ _ e (h2.2.2.2.2 e he)

theorem on_eth_response_fst_parts (s : NetworkState) (p : PeerId) (resp : PeerResponseResult) :
    (s.on_eth_response p resp).1.discovery = s.discovery ∧
    (s.on_eth_response p resp).1.peers_manager = s.peers_manager ∧
    (s.on_eth_response p resp).1.queued_messages = s.queued_messages ∧
    (s.on_eth_response p resp).1.active_peers = s.active_peers ∧
    (s.on_eth_response p resp).1.state_fetcher.actions = s.state_fetcher.actions ∧
    (s.on_eth_response p resp).2 = none := by
  obtain ⟨kind, res⟩ := resp
  cases kind <;> exact ⟨rfl, rfl, rfl, rfl, rfl, rfl⟩

theorem apply_response_eq (st : NetworkState) (pr : PeerId × PeerResponseResult) :
    st.apply_response pr = (st.on_eth_response pr.1 pr.2).1 := by
  simp only [NetworkState.apply_response, (on_eth_response_fst_parts st pr.1 pr.2).2.2.2.2.2]

theorem foldl_responses_parts (rs : List (PeerId × PeerResponseResult)) :
    ∀ st : NetworkState,
      (rs.foldl NetworkState.apply_response st).discovery = st.discovery ∧
      (rs.foldl NetworkState.apply_response st).peers_manager = st.peers_manager ∧
      (rs.foldl NetworkState.apply_response st).queued_messages = st.queued_messages ∧
      (rs.foldl NetworkState.apply_response st).active_peers = st.active_peers ∧
      (rs.foldl NetworkState.apply_response st).state_fetcher.actions =
        st.state_fetcher.actions := by
  induction rs with
  | nil => intro st; exact ⟨rfl, rfl, rfl, rfl, rfl⟩
  | cons pr tl ih =>
    intro st
    have h1 := on_eth_response_fst_parts st pr.1 pr.2
    have h2 := ih (st.apply_response pr)
    rw [apply_response_eq] at h2
    simp only [List.foldl_cons, apply_response_eq]
    exact ⟨h2.1.trans h1.1, h2.2.1.trans h1.2.1, h2.2.2.1.trans h1.2.2.1,
      h2.2.2.2.1.trans h1.2.2.2.1, h2.2.2.2.2.trans h1.2.2.2.2.1⟩

theorem collect_resolves (l : List (PeerId × ActivePeer)) :
    ∀ e ∈ (collectResponses l).1, resolvesNow e.2 = false := by
  induction l with
  | nil => intro e he; exact absurd he (List.not_mem_nil e)
  | cons hd tl ih =>
    intro e he
    obtain ⟨pid, peer⟩ := hd
    cases hpr : peer.pending_response with
    | none =>
      simp only [collectResponses, hpr] at he
      rcases List.mem_cons.mp he with h | h
      · subst h; simp [resolvesNow, hpr]
      · exact ih e h
    | some resp =>
      cases hres : resp.resolved with
      | none =>
        simp only [collectResponses, hpr, hres] at he
        rcases List.mem_cons.mp he with h | h
        · subst h; simp [resolvesNow, hpr, hres]
        · exact ih e h
      | some res =>
        simp only [collectResponses, hpr, hres] at he
        by_cases hcl : res.closed_channel = true
        · rw [if_pos hcl] at he
          rcases List.mem_cons.mp he with h | h
          · subst h; simp [resolvesNow]
          · exact ih e h
        · rw [if_neg hcl] at he
          rcases List.mem_cons.mp he with h | h
          · subst h; simp [resolvesNow]
          · exact ih e h

theorem poll_peer_responses_parts (s : NetworkState) :
    (s.poll_peer_responses).discovery = s.discovery ∧
    (s.poll_peer_responses).peers_manager = s.peers_manager ∧
    (s.poll_peer_responses).state_fetcher.actions = s.state_fetcher.actions ∧
    (∀ e ∈ (s.poll_peer_responses).active_peers, resolvesNow e.2 = false) := by
  unfold NetworkState.poll_peer_responses
  have hclosed := foldl_closed_parts (collectResponses s.active_peers).2.1
    { s with active_peers := (collectResponses s.active_peers).1 }
  have hresp := foldl_responses_parts (collectResponses s.active_peers).2.2
    ((collectResponses s.active_peers).2.1.foldl NetworkState.on_session_closed
      { s with active_peers := (collectResponses s.active_peers).1 })
  refine ⟨hresp.1.trans hclosed.1, hresp.2.1.trans hclosed.2.1,
    hresp.2.2.2.2.trans hclosed.2.2.2.1, ?_⟩
  intro e he
  rw [hresp.2.2.2.1] at he
  exact collect_resolves s.active_peers e (hclosed.2.2.2.2 e he)

theorem on_peer_action_parts (s : NetworkState) (a : PeerAction) :
    (s.on_peer_action a).active_peers = s.active_peers ∧
    (s.on_peer_action a).peers_manager = s.peers_manager ∧
    (s.on_peer_action a).discovery.events = s.discovery.events ∧
    (s.on_peer_action a).state_fetcher.actions = s.state_fetcher.actions := by
  cases a <;> exact ⟨rfl, rfl, rfl, rfl⟩

theorem foldl_peer_action_parts (evs : List PeerAction) :
    ∀ st : NetworkState,
      (evs.foldl NetworkState.on_peer_action st).active_peers = st.active_peers ∧
      (evs.foldl NetworkState.on_peer_action st).peers_manager = st.peers_manager ∧
      (evs.foldl NetworkState.on_peer_action st).discovery.events = st.discovery.events ∧
      (evs.foldl NetworkState.on_peer_action st).state_fetcher.actions =
        st.state_fetcher.actions := by
  induction evs with
  | nil => intro st; exact ⟨rfl, rfl, rfl, rfl⟩
  | cons e tl ih =>
    intro st
    have h1 := on_peer_action_parts st e
    have h2 := ih (st.on_peer_action e)
    exact ⟨h2.1.trans h1.1, h2.2.1.trans h1.2.1, h2.2.2.1.trans h1.2.2.1,
      h2.2.2.2.trans h1.2.2.2⟩

theorem poll_peers_manager_parts (s : NetworkState) :
    (s.poll_peers_manager).active_peers = s.active_peers ∧
    (s.poll_peers_manager).peers_manager = { s.peers_manager with events := [] } ∧
    (s.poll_peers_manager).discovery.events = s.discovery.events ∧
    (s.poll_peers_manager).state_fetcher.actions = s.state_fetcher.actions :=
  foldl_peer_action_parts s.peers_manager.events _

theorem poll_nil_eq (s : NetworkState) (hq : s.queued_messages = []) :
    s.poll = (match (s.poll_discovery.poll_fetcher.poll_peer_responses.poll_peers_manager
        ).queued_messages with
      | [] => (PollResult.pending,
          s.poll_discovery.poll_fetcher.poll_peer_responses.poll_peers_manager)
      | action :: rest => (PollResult.ready action,
          { s.poll_discovery.poll_fetcher.poll_peer_responses.poll_peers_manager with
            queued_messages := rest })) := by
  unfold NetworkState.poll
  rw [hq]

/-- C7: each `poll` tick first checks the buffered queue — a non-empty queue makes `poll`
return the oldest action at once, removing exactly it and leaving every other component (and
so every source) untouched; and whenever `poll` returns `Pending`, the resulting state has an
empty action queue and fully drained sources (no buffered discovery, fetcher, or lifecycle
events, and no peer response that would resolve). -/
theorem c7_poll_fifo_and_pending :
    (∀ (s : NetworkState) (action : StateAction) (rest : List StateAction),
      s.queued_messages = action :: rest →
      s.poll = (PollResult.ready action, { s with queued_messages := rest })) ∧
    (∀ (s : NetworkState) (r : PollResult) (s' : NetworkState),
      s.poll = (r, s') → r = PollResult.pending →
      s'.queued_messages = [] ∧ s'.discovery.events = [] ∧
      s'.state_fetcher.actions = [] ∧ s'.peers_manager.events = [] ∧
      ∀ e ∈ s'.active_peers, resolvesNow e.2 = false) := by
  constructor
  · intro s action rest hq
    unfold NetworkState.poll
    rw [hq]
  · intro s r s' hpoll hr
    subst hr
    cases hq : s.queued_messages with
    | cons action rest =>
      unfold NetworkState.poll at hpoll
      rw [hq] at hpoll
      have hcontra : PollResult.ready action = PollResult.pending := congrArg Prod.fst hpoll
      simp at hcontra
    | nil =>
      rw [poll_nil_eq s hq] at hpoll
      cases hq4 : (s.poll_discovery.poll_fetcher.poll_peer_responses.poll_peers_manager
          ).queued_messages with
      | cons action rest =>
        rw [hq4] at hpoll
        have hcontra : PollResult.ready action = PollResult.pending := congrArg Prod.fst hpoll
        simp at hcontra
      | nil =>
        rw [hq4] at hpoll
        have hs' : s' = s.poll_discovery.poll_fetcher.poll_peer_responses.poll_peers_manager := by
          have h2 := congrArg Prod.snd hpoll
          exact h2.symm
        subst hs'
        have hpd := poll_discovery_parts s
        have hpf := poll_fetcher_parts s.poll_discovery
        have hppr := poll_peer_responses_parts s.poll_discovery.poll_fetcher
        have hppm := poll_peers_manager_parts s.poll_discovery.poll_fetcher.poll_peer_responses
        refine ⟨hq4, ?_, ?_, ?_, ?_⟩
        · rw [hppm.2.2.1, hppr.1, hpf.1, hpd.1]
        · rw [hppm.2.2.2, hppr.2.2.1, hpf.2.1]
        · rw [hppm.2.1]
        · intro e he
          rw [hppm.1] at he
          exact hppr.2.2.2 e he

/-- Witness for C7: a state with one buffered action emits it immediately and untouched
otherwise; the quiescent `baseState` suspends with everything drained. -/
theorem c7_witness :
    threePeerStateVariant.queued_messages = [StateAction.PeerAdded 9] ∧
    threePeerStateVariant.poll = (PollResult.ready (StateAction.PeerAdded 9),
      { threePeerStateVariant with queued_messages := [] }) ∧
    (baseState.poll).1 = PollResult.pending ∧
    (baseState.poll).2.queued_messages = [] ∧
    (baseState.poll).2.discovery.events = [] :=
  ⟨rfl,
   c7_poll_fifo_and_pending.1 threePeerStateVariant (StateAction.PeerAdded 9) [] rfl,
   by decide,
   (c7_poll_fifo_and_pending.2 baseState (baseState.poll).1 (baseState.poll).2 rfl
     (by decide)).1,
   (c7_poll_fifo_and_pending.2 baseState (baseState.poll).1 (baseState.poll).2 rfl
     (by decide)).2.1⟩

theorem poll_discovery_id (s : NetworkState) (h : s.discovery.events = []) :
    s.poll_discovery = s := by
  obtain ⟨ap, pm, qm, cl, d, gh, sf⟩ := s
  obtain ⟨evs, bp, bi, lf⟩ := d
  have h' : evs = [] := h
  subst h'
  rfl

theorem poll_fetcher_id (s : NetworkState) (h : s.state_fetcher.actions = []) :
    s.poll_fetcher = s := by
  obtain ⟨ap, pm, qm, cl, d, gh, sf⟩ := s
  obtain ⟨ps, acts, infl, del, dis⟩ := sf
  have h' : acts = [] := h
  subst h'
  rfl

theorem poll_peers_manager_id (s : NetworkState) (h : s.peers_manager.events = []) :
    s.poll_peers_manager = s := by
  obtain ⟨ap, pm, qm, cl, d, gh, sf⟩ := s
  obtain ⟨evs, rep⟩ := pm
  have h' : evs = [] := h
  subst h'
  rfl

theorem collect_unresolved : ∀ (l : List (PeerId × ActivePeer)),
    (∀ e ∈ l, resolvesNow e.2 = false) → collectResponses l = (l, [], []) := by
  intro l
  induction l with
  | nil => intro _; rfl
  | cons hd tl ih =>
    intro h
    obtain ⟨pid, peer⟩ := hd
    have hh : resolvesNow peer = false := h _ (List.mem_cons_self _ _)
    have ht := ih (fun e he => h e (List.mem_cons_of_mem _ he))
    cases hpr : peer.pending_response with
    | none => simp only [collectResponses, hpr, ht]
    | some resp =>
      cases hres : resp.resolved with
      | some val =>
        exfalso
        simp [resolvesNow, hpr, hres] at hh
      | none => simp only [collectResponses, hpr, hres, ht]

theorem collect_append_unresolved (l1 l2 : List (PeerId × ActivePeer))
    (h : ∀ e ∈ l1, resolvesNow e.2 = false) :
    collectResponses (l1 ++ l2) =
      (l1 ++ (collectResponses l2).1, (collectResponses l2).2.1,
       (collectResponses l2).2.2) := by
  induction l1 with
  | nil => rfl
  | cons hd tl ih =>
    obtain ⟨pid, peer⟩ := hd
    have hh : resolvesNow peer = false := h _ (List.mem_cons_self _ _)
    have ht := ih (fun e he => h e (List.mem_cons_of_mem _ he))
    cases hpr : peer.pending_response with
    | none =>
      simp only [List.cons_append, collectResponses, hpr, List.append_eq]
      rw [ht]
    | some resp =>
      cases hres : resp.resolved with
      | some val =>
        exfalso
        simp [resolvesNow, hpr, hres] at hh
      | none =>
        simp only [List.cons_append, collectResponses, hpr, hres, List.append_eq]
        rw [ht]

theorem collect_closed_cons (pid : PeerId) (peer : ActivePeer)
    (post : List (PeerId × ActivePeer)) (resp : PeerResponse) (res : RequestOutcome)
    (hpr : peer.pending_response = some resp) (hres : resp.resolved = some res)
    (hclosed : res.closed_channel = true) :
    collectResponses ((pid, peer) :: post) =
      ((pid, { peer with pending_response := none }) :: (collectResponses post).1,
       pid :: (collectResponses post).2.1, (collectResponses post).2.2) := by
  simp only [collectResponses, hpr, hres, hclosed, if_true]

theorem on_session_closed_fetcher_singleton (f : StateFetcher) (p : PeerId) (rid : ReqId)
    (h : f.inflight = [(p, rid)]) :
    f.on_session_closed p =
      { f with
        peers := assocRemove p f.peers,
        inflight := [],
        delivered := f.delivered ++ [(rid, DeliveredResult.connectionDropped)] } := by
  unfold StateFetcher.on_session_closed
  rw [h]
  simp

theorem poll_peer_responses_closed (s : NetworkState) (pre post : List (PeerId × ActivePeer))
    (p : PeerId) (peer : ActivePeer) (resp : PeerResponse) (res : RequestOutcome)
    (hactive : s.active_peers = pre ++ (p, peer) :: post)
    (hpr : peer.pending_response = some resp)
    (hres : resp.resolved = some res)
    (hclosed : res.closed_channel = true)
    (hpre : ∀ e ∈ pre, resolvesNow e.2 = false)
    (hpost : ∀ e ∈ post, resolvesNow e.2 = false)
    (hnotin : p ∉ pre.map Prod.fst) :
    s.poll_peer_responses =
      { s with
        active_peers := pre ++ post,
        state_fetcher := s.state_fetcher.on_session_closed p } := by
  have hC : collectResponses ((p, peer) :: post) =
      ((p, { peer with pending_response := none }) :: post, [p], []) := by
    rw [collect_closed_cons p peer post resp res hpr hres hclosed,
      collect_unresolved post hpost]
  unfold NetworkState.poll_peer_responses
  rw [hactive, collect_append_unresolved pre ((p, peer) :: post) hpre, hC]
  simp only [List.foldl_cons, List.foldl_nil]
  unfold NetworkState.on_session_closed
  rw [assocRemove_append_not_mem pre post hnotin]

/-- C5: in the coordinator's poll pass, a pending response future resolving to a
channel-closed error is treated as a session-closed signal: the peer is removed from the
active table, deregistered from the fetcher (its in-flight logical request is dropped), the
original requester observes exactly a connection-dropped error, and the result is never fed
back as a protocol response; the tick then suspends. -/
theorem c5_channel_closed_is_session_closed (s : NetworkState)
    (pre post : List (PeerId × ActivePeer)) (p : PeerId) (peer : ActivePeer)
    (resp : PeerResponse) (res : RequestOutcome) (rid : ReqId)
    (hq : s.queued_messages = [])
    (hdisc : s.discovery.events = [])
    (hfetch : s.state_fetcher.actions = [])
    (hpm : s.peers_manager.events = [])
    (hactive : s.active_peers = pre ++ (p, peer) :: post)
    (hpr : peer.pending_response = some resp)
    (hres : resp.resolved = some res)
    (hclosed : res.closed_channel = true)
    (hpre : ∀ e ∈ pre, resolvesNow e.2 = false)
    (hpost : ∀ e ∈ post, resolvesNow e.2 = false)
    (hnotin : p ∉ pre.map Prod.fst)
    (hinflight : s.state_fetcher.inflight = [(p, rid)]) :
    (s.poll).1 = PollResult.pending ∧
    (s.poll).2.active_peers = pre ++ post ∧
    (s.poll).2.state_fetcher.peers = assocRemove p s.state_fetcher.peers ∧
    (s.poll).2.state_fetcher.inflight = [] ∧
    (s.poll).2.state_fetcher.delivered =
      s.state_fetcher.delivered ++ [(rid, DeliveredResult.connectionDropped)] := by
  have hppr := poll_peer_responses_closed s pre post p peer resp res hactive hpr hres hclosed
    hpre hpost hnotin
  have hchain : s.poll_discovery.poll_fetcher.poll_peer_responses.poll_peers_manager =
      { s with
        active_peers := pre ++ post,
        state_fetcher := s.state_fetcher.on_session_closed p } := by
    rw [poll_discovery_id s hdisc, poll_fetcher_id s hfetch, hppr]
    exact poll_peers_manager_id _ hpm
  have hpoll : s.poll = (PollResult.pending,
      { s with
        active_peers := pre ++ post,
        state_fetcher := s.state_fetcher.on_session_closed p }) := by
    rw [poll_nil_eq s hq, hchain]
    simp [hq]
  rw [hpoll, on_session_closed_fetcher_singleton s.state_fetcher p rid hinflight]
  exact ⟨rfl, rfl, rfl, rfl, rfl⟩

/-- Witness for C5 at `c5State`: peer 7's channel-closed response removes it from the table
and the fetcher, and requester 42 observes `connectionDropped`. -/
theorem c5_witness :
    (c5State.poll).1 = PollResult.pending ∧
    (c5State.poll).2.active_peers = [] ∧
    (c5State.poll).2.state_fetcher.peers = [] ∧
    (c5State.poll).2.state_fetcher.inflight = [] ∧
    (c5State.poll).2.state_fetcher.delivered =
      [(42, DeliveredResult.connectionDropped)] :=
  c5_channel_closed_is_session_closed c5State [] [] 7 closedRespPeer
    { kind := RespKind.bodies,
      resolved := some (RequestOutcome.err RequestError.channelClosed) }
    (RequestOutcome.err RequestError.channelClosed) 42
    rfl rfl rfl rfl rfl rfl rfl rfl
    (by intro e he; exact absurd he (List.not_mem_nil e))
    (by intro e he; exact absurd he (List.not_mem_nil e))
    (by simp) rfl

theorem insert_limit (c : LruCache) (h : H256) : (c.insert h).limit = c.limit := by
  simp only [LruCache.insert]
  by_cases hc : c.inner.contains h = true
  · rw [if_pos hc]
  · rw [if_neg hc]
    by_cases hlim : c.limit < (c.inner ++ [h]).length
    · rw [if_pos hlim]
    · rw [if_neg hlim]

theorem insert_length_le (c : LruCache) (h : H256) (hle : c.inner.length ≤ c.limit) :
    (c.insert h).inner.length ≤ c.limit := by
  simp only [LruCache.insert]
  have hlen : (c.inner ++ [h]).length = c.inner.length + 1 := by simp
  by_cases hc : c.inner.contains h = true
  · rw [if_pos hc]
    exact hle
  · rw [if_neg hc]
    by_cases hlim : c.limit < (c.inner ++ [h]).length
    · rw [if_pos hlim]
      show (c.inner ++ [h]).tail.length ≤ c.limit
      rw [List.length_tail, hlen]
      omega
    · rw [if_neg hlim]
      show (c.inner ++ [h]).length ≤ c.limit
      omega

theorem insert_eviction (c : LruCache) (h hd : H256) (tl : List H256)
    (hlim : c.limit = PEER_BLOCK_CACHE_LIMIT) (hlen : c.inner.length = PEER_BLOCK_CACHE_LIMIT)
    (hinner : c.inner = hd :: tl) (hcont : c.contains h = false) :
    (c.insert h).inner = tl ++ [h] := by
  have hc : ¬ c.inner.contains h = true := by
    intro hx
    rw [show c.inner.contains h = c.contains h from rfl, hcont] at hx
    exact Bool.false_ne_true hx
  have hgrow : c.limit < (c.inner ++ [h]).length := by
    rw [List.length_append, hlen, hlim]
    simp
  simp only [LruCache.insert]
  rw [if_neg hc, if_pos hgrow]
  show (c.inner ++ [h]).tail = tl ++ [h]
  rw [hinner]
  rfl

theorem cacheInv_insert (c : LruCache) (h : H256)
    (hok : c.limit = PEER_BLOCK_CACHE_LIMIT ∧ c.inner.length ≤ PEER_BLOCK_CACHE_LIMIT) :
    (c.insert h).limit = PEER_BLOCK_CACHE_LIMIT ∧
      (c.insert h).inner.length ≤ PEER_BLOCK_CACHE_LIMIT := by
  constructor
  · rw [insert_limit]
    exact hok.1
  · have h3 : c.inner.length ≤ c.limit := by
      rw [hok.1]
      exact hok.2
    have h4 := insert_length_le c h h3
    rw [hok.1] at h4
    exact h4

theorem cacheInv_foldl (hs : List H256) :
    ∀ c : LruCache,
      (c.limit = PEER_BLOCK_CACHE_LIMIT ∧ c.inner.length ≤ PEER_BLOCK_CACHE_LIMIT) →
      ((hs.foldl LruCache.insert c).limit = PEER_BLOCK_CACHE_LIMIT ∧
        (hs.foldl LruCache.insert c).inner.length ≤ PEER_BLOCK_CACHE_LIMIT) := by
  induction hs with
  | nil => intro c hok; exact hok
  | cons h tl ih =>
    intro c hok
    exact ih (c.insert h) (cacheInv_insert c h hok)

theorem cacheOk_blocks_eq {p q : ActivePeer} (h : p.blocks = q.blocks) (hok : cacheOk q) :
    cacheOk p := by
  unfold cacheOk at hok ⊢
  rw [h]
  exact hok

theorem announceLoop_blocks_mem (msg : NewBlockMessage) (np : Nat) :
    ∀ (peers : List (PeerId × ActivePeer)) (fetcher : StateFetcher) (count : Nat),
      ∀ e ∈ (announceLoop fetcher msg np count peers).2.1, ∃ e0, e0 ∈ peers ∧
        (e.2.blocks = e0.2.blocks ∨ e.2.blocks = e0.2.blocks.insert msg.hash) := by
  intro peers
  induction peers with
  | nil => intro fetcher count e he; exact absurd he (List.not_mem_nil e)
  | cons hd rest ih =>
    intro fetcher count e he
    obtain ⟨pid, peer0⟩ := hd
    by_cases hc : peer0.blocks.contains msg.hash = true
    · simp only [announceLoop, if_pos hc] at he
      rcases List.mem_cons.mp he with h | h
      · exact ⟨(pid, peer0), List.mem_cons_self _ _, Or.inl (by rw [h])⟩
      · obtain ⟨e0, he0, hbl⟩ := ih fetcher count e h
        exact ⟨e0, List.mem_cons_of_mem _ he0, hbl⟩
    · by_cases hcount : count < np
      · by_cases hbreak : np ≤ count + 1
        · simp only [announceLoop, if_neg hc, if_pos hcount, if_pos hbreak] at he
          rcases List.mem_cons.mp he with h | h
          · exact ⟨(pid, peer0), List.mem_cons_self _ _, Or.inr (by rw [h])⟩
          · exact ⟨e, List.mem_cons_of_mem _ h, Or.inl rfl⟩
        · simp only [announceLoop, if_neg hc, if_pos hcount, if_neg hbreak] at he
          rcases List.mem_cons.mp he with h | h
          · exact ⟨(pid, peer0), List.mem_cons_self _ _, Or.inr (by rw [h])⟩
          · obtain ⟨e0, he0, hbl⟩ := ih _ (count + 1) e h
            exact ⟨e0, List.mem_cons_of_mem _ he0, hbl⟩
      · simp only [announceLoop, if_neg hc, if_neg hcount] at he
        exact ⟨e, he, Or.inl rfl⟩

theorem assocUpdate_mem {β : Type} (k : Nat) (f : β → β) (l : List (Nat × β)) :
    ∀ e ∈ assocUpdate k f l, e ∈ l ∨ ∃ e0, e0 ∈ l ∧ e = (e0.1, f e0.2) := by
  induction l with
  | nil => intro e he; exact absurd he (List.not_mem_nil e)
  | cons hd tl ih =>
    intro e he
    obtain ⟨k', v⟩ := hd
    by_cases hk : k' = k
    · simp only [assocUpdate, if_pos hk] at he
      rcases List.mem_cons.mp he with h | h
      · exact Or.inr ⟨(k', v), List.mem_cons_self _ _, by rw [h]⟩
      · exact Or.inl (List.mem_cons_of_mem _ h)
    · simp only [assocUpdate, if_neg hk] at he
      rcases List.mem_cons.mp he with h | h
      · exact Or.inl (h ▸ List.mem_cons_self _ _)
      · rcases ih e h with h2 | ⟨e0, he0, heq⟩
        · exact Or.inl (List.mem_cons_of_mem _ h2)
        · exact Or.inr ⟨e0, List.mem_cons_of_mem _ he0, heq⟩

/-- C8: the known-block cache never exceeds its fixed capacity 512 (`insert` preserves the
bound and keeps the capacity), inserting a 513th distinct hash evicts exactly the
oldest-inserted entry, and the bound is preserved by every coordinator operation that
inserts into a cache: `announce_new_block`, `on_new_block`, `on_new_block_hashes`, and
session activation (which creates a fresh in-bounds cache). -/
theorem c8_known_blocks_capacity :
    (∀ (c : LruCache) (h : H256), c.inner.length ≤ c.limit →
      (c.insert h).inner.length ≤ c.limit ∧ (c.insert h).limit = c.limit) ∧
    (∀ (c : LruCache) (h hd : H256) (tl : List H256),
      c.limit = PEER_BLOCK_CACHE_LIMIT → c.inner.length = PEER_BLOCK_CACHE_LIMIT →
      c.inner = hd :: tl → c.contains h = false →
      (c.insert h).inner = tl ++ [h]) ∧
    (∀ (s : NetworkState) (msg : NewBlockMessage), StateCachesOk s →
      StateCachesOk (s.announce_new_block msg)) ∧
    (∀ (s : NetworkState) (p : PeerId) (h : H256), StateCachesOk s →
      StateCachesOk (s.on_new_block p h)) ∧
    (∀ (s : NetworkState) (p : PeerId) (hs : List BlockHashNumber), StateCachesOk s →
      StateCachesOk (s.on_new_block_hashes p hs)) ∧
    (∀ (s : NetworkState) (peer : PeerId) (caps : List Nat) (status : Status)
      (tx : PeerRequestSender) (timeout : Nat) (s' : NetworkState), StateCachesOk s →
      s.on_session_activated peer caps status tx timeout = Except.ok s' →
      StateCachesOk s') := by
  refine ⟨?_, ?_, ?_, ?_, ?_, ?_⟩
  · intro c h hle
    exact ⟨insert_length_le c h hle, insert_limit c h⟩
  · intro c h hd tl h1 h2 h3 h4
    exact insert_eviction c h hd tl h1 h2 h3 h4
  · intro s msg hok e he
    obtain ⟨e0, he0, hbl⟩ := announceLoop_blocks_mem msg _ s.active_peers s.state_fetcher 0 e he
    have h0 := hok e0 he0
    rcases hbl with hbl | hbl
    · unfold cacheOk at h0 ⊢
      rw [hbl]
      exact h0
    · unfold cacheOk at h0 ⊢
      rw [hbl]
      exact cacheInv_insert e0.2.blocks msg.hash h0
  · intro s p h hok e he
    rcases assocUpdate_mem p _ s.active_peers e he with h2 | ⟨e0, he0, heq⟩
    · exact hok e h2
    · have h0 := hok e0 he0
      unfold cacheOk at h0 ⊢
      rw [heq]
      exact cacheInv_insert e0.2.blocks h h0
  · intro s p hs hok e he
    rcases assocUpdate_mem p _ s.active_peers e he with h2 | ⟨e0, he0, heq⟩
    · exact hok e h2
    · have h0 := hok e0 he0
      unfold cacheOk at h0 ⊢
      rw [heq]
      show ((LruCache.extend e0.2.blocks (hs.map (fun b => b.hash))).limit =
        PEER_BLOCK_CACHE_LIMIT ∧ _)
      unfold LruCache.extend
      exact cacheInv_foldl _ e0.2.blocks h0
  · intro s peer caps status tx timeout s' hok hact
    unfold NetworkState.on_session_activated at hact
    by_cases hdup : (assocFind peer s.active_peers).isSome = true
    · rw [if_pos hdup] at hact
      exact absurd hact (by simp)
    · rw [if_neg hdup] at hact
      injection hact with hs'
      subst hs'
      intro e he
      rcases List.mem_append.mp he with h2 | h2
      · exact hok e h2
      · have he2 : e = (peer,
            ({ best_hash := status.blockhash, capabilities := caps, request_tx := tx,
               pending_response := none,
               blocks := LruCache.new PEER_BLOCK_CACHE_LIMIT } : ActivePeer)) := by
          simpa using h2
        rw [he2]
        exact ⟨rfl, by simp [LruCache.new]⟩

set_option maxRecDepth 10000 in
/-- Witness for C8: a full 512-entry cache evicts its oldest entry when a distinct 513th
hash is inserted, and announcing a block over `threePeerState` keeps every cache in
bounds. -/
theorem c8_witness :
    ({ limit := PEER_BLOCK_CACHE_LIMIT, inner := List.replicate 512 5 } :
        LruCache).contains 7 = false ∧
    (({ limit := PEER_BLOCK_CACHE_LIMIT, inner := List.replicate 512 5 } :
        LruCache).insert 7).inner = List.replicate 511 5 ++ [7] ∧
    StateCachesOk (threePeerState.announce_new_block sampleMsg) :=
  ⟨by decide,
   c8_known_blocks_capacity.2.1
     { limit := PEER_BLOCK_CACHE_LIMIT, inner := List.replicate 512 5 } 7 5
     (List.replicate 511 5) rfl (by decide) (by decide) (by decide),
   c8_known_blocks_capacity.2.2.1 threePeerState sampleMsg (by decide)⟩

end Reth
